import Mathlib

/-!
Verification development for serial_circular_buffer_service.cpp.

The driver keeps two circular buffers over fixed storage regions and
coordinates them with a DMA engine.  The embedding below translates the
class serial_circular_buffer field by field and function by function.
Byte storage is modelled as a total function from indices to byte values;
the C memcpy calls become pointwise overwrites of an index interval.
Calls into the hardware layer (PDC arm calls) are recorded as an event
trace, with an arm-transmit event carrying the bytes the hardware engine
is handed (the contents of the armed interval at arm time).  The two
level-triggered status bits read inside the interrupt handler are inputs
of the handler function.  All C++ index arithmetic is on uint32_t values
far below the wrap bound, so it is rendered with Nat, and the one signed
computation (the int32_t difference in the unread and unsent counters) is
rendered with Int exactly as written.
-/

namespace SerialCB

/-- Hardware-visible effect of one driver operation: a memcpy into the
transmit storage (destination interval), an arm-transmit call (start
index, length, and the bytes handed over), or an arm-receive call
(start index and size of the receive region). -/
inductive Event where
  | memcpyTx (start len : Nat)
  | armTx (start len : Nat) (bytes : List Nat)
  | armRx (start size : Nat)
  deriving Repr, DecidableEq

/-- State of one serial_circular_buffer instance: the data members of the
C++ class.  The peripheral base addresses are dropped (they only select
which hardware registers are touched); the transmit-empty interrupt
enable bit, which the C++ code flips through HAL register macros, is kept
here so that enabling and disabling the interrupt source is visible. -/
structure SCB where
  rx_buffer : Nat → Nat
  rx_buffer_size : Nat
  pdc_tx_buffer : Nat → Nat
  tx_buffer_size : Nat
  tx_buffer_head_index : Nat
  tx_buffer_tail_index : Nat
  rx_buffer_tail_index : Nat
  pdc_Tx_in_progress : Bool
  tx_empty_irq_enabled : Bool

/-- Model of memcpy into byte storage: overwrite the interval
[dest, dest + src.length) with the bytes of src, leave the rest. -/
def writeBytes (buf : Nat → Nat) (dest : Nat) (src : List Nat) : Nat → Nat :=
  fun j => if dest ≤ j ∧ j < dest + src.length then src.getD (j - dest) 0 else buf j

/-- Contiguous read of len bytes starting at start (what the DMA engine
sees when armed with a base pointer and a length). -/
def readRange (buf : Nat → Nat) (start len : Nat) : List Nat :=
  (List.range len).map fun i => buf (start + i)

/-- Circular read of len bytes starting at start, wrapping at cap. -/
def circRead (buf : Nat → Nat) (start len cap : Nat) : List Nat :=
  (List.range len).map fun i => buf ((start + i) % cap)

/-- Translation of serial_circular_buffer::increment_rx_buffer_tail_index. -/
def increment_rx_buffer_tail_index (s : SCB) (increment_index : Nat) : SCB :=
  { s with rx_buffer_tail_index := (s.rx_buffer_tail_index + increment_index) % s.rx_buffer_size }

/-- Translation of serial_circular_buffer::increment_tx_buffer_head_index. -/
def increment_tx_buffer_head_index (s : SCB) (increment_index : Nat) : SCB :=
  { s with tx_buffer_head_index := (s.tx_buffer_head_index + increment_index) % s.tx_buffer_size }

/-- Translation of serial_circular_buffer::increment_tx_buffer_tail_index. -/
def increment_tx_buffer_tail_index (s : SCB) (increment_index : Nat) : SCB :=
  { s with tx_buffer_tail_index := (s.tx_buffer_tail_index + increment_index) % s.tx_buffer_size }

/-- Translation of serial_circular_buffer::get_rx_buffer_head_index.
The hardware remaining-count register PERIPH_RCR is an input; the
function returns rx_buffer_size minus that reading. -/
def get_rx_buffer_head_index (s : SCB) (receive_counter_value : Nat) : Nat :=
  s.rx_buffer_size - receive_counter_value

/-- Translation of serial_circular_buffer::get_number_of_unread_bytes.
The int32_t difference of the two uint32_t indices is rendered with Int;
a negative difference is corrected by adding the buffer size, then the
result is cast back to an unsigned count. -/
def get_number_of_unread_bytes (s : SCB) (receive_counter_value : Nat) : Nat :=
  (let difference : Int :=
     (get_rx_buffer_head_index s receive_counter_value : Int) -
       (s.rx_buffer_tail_index : Int)
   if difference < 0 then difference + (s.rx_buffer_size : Int) else difference).toNat

/-- Translation of serial_circular_buffer::get_latest_byte: read the byte
at the receive tail, then advance the tail by one modulo the size. -/
def get_latest_byte (s : SCB) : Nat × SCB :=
  (s.rx_buffer s.rx_buffer_tail_index, increment_rx_buffer_tail_index s 1)

/-- Translation of serial_circular_buffer::get_number_of_unsent_bytes,
same int32_t wraparound correction as the unread counter. -/
def get_number_of_unsent_bytes (s : SCB) : Nat :=
  (let difference : Int :=
     (s.tx_buffer_head_index : Int) - (s.tx_buffer_tail_index : Int)
   if difference < 0 then difference + (s.tx_buffer_size : Int) else difference).toNat

/-- Translation of serial_circular_buffer::initiate_PDC_Tx: arm the
transmit PDC with a pointer into pdc_tx_buffer and a byte count, then
enable the transmit-empty interrupt source.  The arm event records the
bytes of the armed interval at arm time. -/
def initiate_PDC_Tx (s : SCB) (tx_buffer_start_index bytes_to_transfer : Nat) :
    SCB × List Event :=
  ({ s with tx_empty_irq_enabled := true },
   [Event.armTx tx_buffer_start_index bytes_to_transfer
      (readRange s.pdc_tx_buffer tx_buffer_start_index bytes_to_transfer)])

/-- Translation of
serial_circular_buffer::copy_packet_into_Tx_buffer_and_transmit.
The packet is the list of bytes; number_of_bytes_to_transmit is its
length.  The rollover test, the two memcpy calls, the head increments,
the tail preload, and the conditional arm call follow the source line by
line; the outer condition reads pdc_Tx_in_progress, which the copies do
not modify, so it is read from the entry state. -/
def copy_packet_into_Tx_buffer_and_transmit (s : SCB)
    (serialized_data_to_transmit : List Nat) : SCB × List Event :=
  let number_of_bytes_to_transmit := serialized_data_to_transmit.length
  let initial_tx_buffer_head_index := s.tx_buffer_head_index
  let first_contiguous_block_size :=
    if s.tx_buffer_size < number_of_bytes_to_transmit + s.tx_buffer_head_index then
      s.tx_buffer_size - s.tx_buffer_head_index
    else number_of_bytes_to_transmit
  let second_contiguous_block_size :=
    if s.tx_buffer_size < number_of_bytes_to_transmit + s.tx_buffer_head_index then
      (number_of_bytes_to_transmit + s.tx_buffer_head_index) - s.tx_buffer_size
    else 0
  let bufA :=
    writeBytes s.pdc_tx_buffer s.tx_buffer_head_index
      (serialized_data_to_transmit.take first_contiguous_block_size)
  let sA : SCB := { s with pdc_tx_buffer := bufA }
  let sB := increment_tx_buffer_head_index sA first_contiguous_block_size
  let copyEventsA : List Event :=
    [Event.memcpyTx s.tx_buffer_head_index first_contiguous_block_size]
  let bufB :=
    writeBytes sB.pdc_tx_buffer sB.tx_buffer_head_index
      (serialized_data_to_transmit.drop first_contiguous_block_size)
  let sC : SCB :=
    if s.tx_buffer_size < number_of_bytes_to_transmit + s.tx_buffer_head_index then
      { sB with pdc_tx_buffer := bufB }
    else sB
  let sD :=
    if s.tx_buffer_size < number_of_bytes_to_transmit + s.tx_buffer_head_index then
      increment_tx_buffer_head_index sC second_contiguous_block_size
    else sC
  let copyEventsB : List Event :=
    if s.tx_buffer_size < number_of_bytes_to_transmit + s.tx_buffer_head_index then
      [Event.memcpyTx sB.tx_buffer_head_index second_contiguous_block_size]
    else []
  if s.pdc_Tx_in_progress = false then
    let sE : SCB := { sD with pdc_Tx_in_progress := true }
    let sF := increment_tx_buffer_tail_index sE first_contiguous_block_size
    let armed := initiate_PDC_Tx sF initial_tx_buffer_head_index first_contiguous_block_size
    (armed.1, copyEventsA ++ copyEventsB ++ armed.2)
  else
    (sD, copyEventsA ++ copyEventsB)

/-- Translation of serial_circular_buffer::serial_circular_buffer_irq_handler.
The two level-triggered hardware conditions read through the HAL status
macros are the Bool inputs.  The receive-full branch only re-arms the
receive PDC with the start of the receive storage and its full size; the
transmit-empty branch either continues the transmission or goes idle. -/
def serial_circular_buffer_irq_handler (s : SCB)
    (receive_buffer_full transmit_buffer_empty : Bool) : SCB × List Event :=
  let rxEvents : List Event :=
    if receive_buffer_full then [Event.armRx 0 s.rx_buffer_size] else []
  if transmit_buffer_empty then
    let number_of_unsent_tx_bytes := get_number_of_unsent_bytes s
    if number_of_unsent_tx_bytes ≠ 0 then
      let number_of_bytes_to_send :=
        if s.tx_buffer_head_index < s.tx_buffer_tail_index then
          s.tx_buffer_size - s.tx_buffer_tail_index
        else
          number_of_unsent_tx_bytes
      let armed := initiate_PDC_Tx s s.tx_buffer_tail_index number_of_bytes_to_send
      let s2 := increment_tx_buffer_tail_index armed.1 number_of_bytes_to_send
      ({ s2 with pdc_Tx_in_progress := true }, rxEvents ++ armed.2)
    else
      ({ s with pdc_Tx_in_progress := false, tx_empty_irq_enabled := false }, rxEvents)
  else (s, rxEvents)

/-- Translation of the state initialisation part of
serial_circular_buffer::init (lines 42 to 58): record the storage regions
and sizes, zero the three indices, clear pdc_Tx_in_progress, and leave
the transmit-empty interrupt source disabled.  The UART configuration and
the interrupt-line enable act only on hardware registers. -/
def init (Rx_buffer : Nat → Nat) (Rx_buffer_size_in_bytes : Nat)
    (Tx_buffer : Nat → Nat) (Tx_buffer_size_in_bytes : Nat) : SCB :=
  { rx_buffer := Rx_buffer
    rx_buffer_size := Rx_buffer_size_in_bytes
    pdc_tx_buffer := Tx_buffer
    tx_buffer_size := Tx_buffer_size_in_bytes
    tx_buffer_head_index := 0
    tx_buffer_tail_index := 0
    rx_buffer_tail_index := 0
    pdc_Tx_in_progress := false
    tx_empty_irq_enabled := false }

/-- Selector for the two UART ports the driver supports. -/
inductive UartPort where
  | port0
  | port1
  deriving Repr, DecidableEq

/-- The two file-scope instance pointers UART0_ISR_instance_ptr and
UART1_ISR_instance_ptr; none models the initial NULL value. -/
structure Registry where
  UART0_ISR_instance_ptr : Option SCB
  UART1_ISR_instance_ptr : Option SCB

/-- Registry state before any init call: both pointers are NULL. -/
def initialRegistry : Registry := ⟨none, none⟩

/-- Pointer registration performed inside serial_circular_buffer::init
(lines 29 to 38): store this instance under its port. -/
def registerInstance (r : Registry) (p : UartPort) (inst : SCB) : Registry :=
  match p with
  | .port0 => { r with UART0_ISR_instance_ptr := some inst }
  | .port1 => { r with UART1_ISR_instance_ptr := some inst }

/-- Translation of UART0_Handler: dereference UART0_ISR_instance_ptr and
run the member interrupt handler.  A NULL pointer makes the dereference a
fault, modelled as none. -/
def UART0_Handler (r : Registry) (receive_buffer_full transmit_buffer_empty : Bool) :
    Option (SCB × List Event) :=
  match r.UART0_ISR_instance_ptr with
  | none => none
  | some s => some (serial_circular_buffer_irq_handler s receive_buffer_full transmit_buffer_empty)

/-- Translation of UART1_Handler, same shape as UART0_Handler. -/
def UART1_Handler (r : Registry) (receive_buffer_full transmit_buffer_empty : Bool) :
    Option (SCB × List Event) :=
  match r.UART1_ISR_instance_ptr with
  | none => none
  | some s => some (serial_circular_buffer_irq_handler s receive_buffer_full transmit_buffer_empty)

/-- One externally triggered transmit-side action: an application call of
copy_packet_into_Tx_buffer_and_transmit, or a transmit-complete interrupt
(the handler invoked with the transmit-empty condition signalled). -/
inductive Op where
  | enq (data : List Nat)
  | irqTx
  deriving Repr, DecidableEq

/-- Effect of one Op on the driver state. -/
def step (s : SCB) : Op → SCB × List Event
  | .enq data => copy_packet_into_Tx_buffer_and_transmit s data
  | .irqTx => serial_circular_buffer_irq_handler s false true

/-- Run a sequence of Ops, concatenating the emitted events. -/
def run (s : SCB) : List Op → SCB × List Event
  | [] => (s, [])
  | op :: ops =>
      let r1 := step s op
      let r2 := run r1.1 ops
      (r2.1, r1.2 ++ r2.2)

/-- Bytes handed to the hardware arm-transmit calls of an event trace,
concatenated in arming order. -/
def armedBytes : List Event → List Nat
  | [] => []
  | .armTx _ _ bytes :: evs => bytes ++ armedBytes evs
  | .memcpyTx _ _ :: evs => armedBytes evs
  | .armRx _ _ :: evs => armedBytes evs

/-- Start and length of each arm-transmit call of an event trace. -/
def armRuns : List Event → List (Nat × Nat)
  | [] => []
  | .armTx start len _ :: evs => (start, len) :: armRuns evs
  | .memcpyTx _ _ :: evs => armRuns evs
  | .armRx _ _ :: evs => armRuns evs

/-- The packets enqueued by a sequence of Ops, in order. -/
def enqPackets : List Op → List (List Nat)
  | [] => []
  | .enq data :: ops => data :: enqPackets ops
  | .irqTx :: ops => enqPackets ops

/-- Concatenation of all bytes enqueued by a sequence of Ops. -/
def enqueuedBytes : List Op → List Nat
  | [] => []
  | .enq data :: ops => data ++ enqueuedBytes ops
  | .irqTx :: ops => enqueuedBytes ops

/-- The bytes resident in the transmit buffer that are pending (counted by
get_number_of_unsent_bytes), read circularly from the tail. -/
def txPending (s : SCB) : List Nat :=
  circRead s.pdc_tx_buffer s.tx_buffer_tail_index
    (get_number_of_unsent_bytes s) s.tx_buffer_size

/-- Repeatedly invoke the transmit-complete interrupt handler while a
transmission is in progress, up to the given number of invocations. -/
def drainTx (s : SCB) : Nat → SCB
  | 0 => s
  | fuel + 1 =>
      if s.pdc_Tx_in_progress then
        drainTx (serial_circular_buffer_irq_handler s false true).1 fuel
      else s

/-- Bounds demanded of one hardware-visible access: memcpy destinations
and arm-transmit intervals stay inside the transmit storage, arm-receive
intervals inside the receive storage. -/
def eventInBounds (txCap rxCap : Nat) : Event → Prop
  | .memcpyTx start len => start + len ≤ txCap
  | .armTx start len _ => start + len ≤ txCap
  | .armRx start size => start + size ≤ rxCap

instance (txCap rxCap : Nat) (e : Event) : Decidable (eventInBounds txCap rxCap e) := by
  cases e <;> simp [eventInBounds] <;> infer_instance

/-- Idle driver state over zeroed storage of the given capacities, as
left by init. -/
def mkIdle (cap : Nat) : SCB := init (fun _ => 0) cap (fun _ => 0) cap

/-- mkIdle with chosen transmit head, tail and in-progress flag, for
concrete instances. -/
def mkSt (cap h t : Nat) (ip : Bool) : SCB :=
  { mkIdle cap with
      tx_buffer_head_index := h
      tx_buffer_tail_index := t
      pdc_Tx_in_progress := ip }

/-- Length of the run the transmit-empty branch of the interrupt handler
arms next: up to the physical end of the buffer when the pending bytes
wrap (head < tail), the whole pending count otherwise. -/
def txNextRunLen (s : SCB) : Nat :=
  if s.tx_buffer_head_index < s.tx_buffer_tail_index then
    s.tx_buffer_size - s.tx_buffer_tail_index
  else get_number_of_unsent_bytes s

/-- The stated invariant: an idle transmitter has no pending bytes. -/
def TxIdleInv (s : SCB) : Prop :=
  s.pdc_Tx_in_progress = false → get_number_of_unsent_bytes s = 0

/-- Size of the first contiguous block an enqueue of len bytes writes
when the transmit head is at head in a buffer of size cap. -/
def firstSeg (cap head len : Nat) : Nat :=
  if cap < len + head then cap - head else len

/-- Size of the wrapped-around second block of such an enqueue. -/
def secondSeg (cap head len : Nat) : Nat := len - firstSeg cap head len

end SerialCB

namespace SerialCB

lemma int_emod_shift (a b : Int) : (a + b) % b = a % b := by
  have h : a + b = a + b * 1 := by ring
  rw [h, Int.add_mul_emod_self_left]

/-- Unfold get_number_of_unsent_bytes to a Nat case split, valid for
in-range indices. -/
lemma unsent_eq_if (s : SCB)
    (hh : s.tx_buffer_head_index < s.tx_buffer_size)
    (ht : s.tx_buffer_tail_index < s.tx_buffer_size) :
    get_number_of_unsent_bytes s =
      if s.tx_buffer_tail_index ≤ s.tx_buffer_head_index then
        s.tx_buffer_head_index - s.tx_buffer_tail_index
      else s.tx_buffer_head_index + s.tx_buffer_size - s.tx_buffer_tail_index := by
  simp only [get_number_of_unsent_bytes]
  split_ifs <;> omega

lemma unsent_lt (s : SCB)
    (hh : s.tx_buffer_head_index < s.tx_buffer_size)
    (ht : s.tx_buffer_tail_index < s.tx_buffer_size) :
    get_number_of_unsent_bytes s < s.tx_buffer_size := by
  rw [unsent_eq_if s hh ht]; split_ifs <;> omega

lemma unsent_eq_zero_iff (s : SCB)
    (hh : s.tx_buffer_head_index < s.tx_buffer_size)
    (ht : s.tx_buffer_tail_index < s.tx_buffer_size) :
    get_number_of_unsent_bytes s = 0 ↔
      s.tx_buffer_head_index = s.tx_buffer_tail_index := by
  rw [unsent_eq_if s hh ht]; split_ifs <;> omega

/-- Shape of the interrupt handler with the transmit-empty condition
signalled and no pending bytes. -/
lemma irq_zero_eq (s : SCB) (receive_buffer_full : Bool)
    (h0 : get_number_of_unsent_bytes s = 0) :
    serial_circular_buffer_irq_handler s receive_buffer_full true
      = ({ s with pdc_Tx_in_progress := false, tx_empty_irq_enabled := false },
         if receive_buffer_full then [Event.armRx 0 s.rx_buffer_size] else []) := by
  simp [serial_circular_buffer_irq_handler, h0]

/-- Shape of the interrupt handler with the transmit-empty condition
signalled and pending bytes. -/
lemma irq_pos_eq (s : SCB) (receive_buffer_full : Bool)
    (hne : get_number_of_unsent_bytes s ≠ 0) :
    serial_circular_buffer_irq_handler s receive_buffer_full true
      = ({ s with
            tx_empty_irq_enabled := true,
            tx_buffer_tail_index :=
              (s.tx_buffer_tail_index + txNextRunLen s) % s.tx_buffer_size,
            pdc_Tx_in_progress := true },
         (if receive_buffer_full then [Event.armRx 0 s.rx_buffer_size] else [])
           ++ [Event.armTx s.tx_buffer_tail_index (txNextRunLen s)
                 (readRange s.pdc_tx_buffer s.tx_buffer_tail_index (txNextRunLen s))]) := by
  obtain ⟨rxb, rxs, txb, txs, th, tt, rt, ip, en⟩ := s
  simp [serial_circular_buffer_irq_handler, hne, initiate_PDC_Tx,
    increment_tx_buffer_tail_index, txNextRunLen]

/-- Every enqueue call leaves pdc_Tx_in_progress set: either it was set
on entry and is untouched, or the idle branch sets it. -/
lemma enq_ip (s : SCB) (data : List Nat) :
    (copy_packet_into_Tx_buffer_and_transmit s data).1.pdc_Tx_in_progress = true := by
  obtain ⟨rxb, rxs, txb, txs, th, tt, rt, ip, en⟩ := s
  cases ip
  · rfl
  · simp only [copy_packet_into_Tx_buffer_and_transmit]
    by_cases hc : txs < data.length + th
    · simp only [if_pos hc]
      rfl
    · simp only [if_neg hc]
      rfl

/-- Claim C9: the receive-full branch of the interrupt handler only
re-arms the receive engine with the start of the receive region and
rx_capacity; the driver state (receive tail and all transmit state) is
unchanged, and invoking the branch again gives the same result. -/
theorem claim_C9 (s : SCB) :
    (serial_circular_buffer_irq_handler s true false).1 = s
  ∧ (serial_circular_buffer_irq_handler s true false).2 = [Event.armRx 0 s.rx_buffer_size]
  ∧ serial_circular_buffer_irq_handler (serial_circular_buffer_irq_handler s true false).1 true false
      = serial_circular_buffer_irq_handler s true false :=
  ⟨rfl, rfl, rfl⟩

/-- Claim C2: with the transmit-empty condition signalled, the handler
goes idle (clears pdc_Tx_in_progress, disables the transmit-empty
interrupt source, changes nothing else and arms nothing) when no bytes
are pending; otherwise it arms a run of txNextRunLen s bytes starting at
the tail, advances the tail by that length modulo the buffer size, and
leaves pdc_Tx_in_progress set. -/
theorem claim_C2 (s : SCB) (receive_buffer_full : Bool) :
    (get_number_of_unsent_bytes s = 0 →
        serial_circular_buffer_irq_handler s receive_buffer_full true
          = ({ s with pdc_Tx_in_progress := false, tx_empty_irq_enabled := false },
             if receive_buffer_full then [Event.armRx 0 s.rx_buffer_size] else []))
  ∧ (0 < get_number_of_unsent_bytes s →
        serial_circular_buffer_irq_handler s receive_buffer_full true
          = ({ s with
                tx_empty_irq_enabled := true,
                tx_buffer_tail_index :=
                  (s.tx_buffer_tail_index + txNextRunLen s) % s.tx_buffer_size,
                pdc_Tx_in_progress := true },
             (if receive_buffer_full then [Event.armRx 0 s.rx_buffer_size] else [])
               ++ [Event.armTx s.tx_buffer_tail_index (txNextRunLen s)
                     (readRange s.pdc_tx_buffer s.tx_buffer_tail_index (txNextRunLen s))])) :=
  ⟨fun h0 => irq_zero_eq s receive_buffer_full h0,
   fun hpos => irq_pos_eq s receive_buffer_full (by omega)⟩

/-- Witness for claim C2 at a concrete busy state: capacity 8, head 3,
tail 0, three pending bytes; the armed run has length 3 and the tail
advances to 3. -/
theorem claim_C2_witness :
    0 < get_number_of_unsent_bytes (mkSt 8 3 0 true)
  ∧ (serial_circular_buffer_irq_handler (mkSt 8 3 0 true) false true).1.tx_buffer_tail_index = 3
  ∧ armRuns (serial_circular_buffer_irq_handler (mkSt 8 3 0 true) false true).2 = [(0, 3)] := by
  refine ⟨by decide, ?_, ?_⟩ <;>
    rw [(claim_C2 (mkSt 8 3 0 true) false).2 (by decide)] <;> decide

/-- Claim C5: the invariant that an idle transmitter has no unsent bytes
holds after init and is preserved by every enqueue and by every interrupt
handler invocation. -/
theorem claim_C5 :
    (∀ rxBuf rxSize txBuf txSize, TxIdleInv (init rxBuf rxSize txBuf txSize))
  ∧ (∀ s data, TxIdleInv s →
      TxIdleInv (copy_packet_into_Tx_buffer_and_transmit s data).1)
  ∧ (∀ s receive_buffer_full transmit_buffer_empty, TxIdleInv s →
      TxIdleInv (serial_circular_buffer_irq_handler s receive_buffer_full transmit_buffer_empty).1) := by
  refine ⟨?_, ?_, ?_⟩
  · intro rxBuf rxSize txBuf txSize _
    rfl
  · intro s data _ hfalse
    have hip := enq_ip s data
    rw [hfalse] at hip
    exact Bool.noConfusion hip
  · intro s rxFull txEmpty hInv
    cases txEmpty
    · exact hInv
    · by_cases h0 : get_number_of_unsent_bytes s = 0
      · rw [irq_zero_eq s rxFull h0]
        intro _
        exact h0
      · rw [irq_pos_eq s rxFull h0]
        intro hfalse
        exact Bool.noConfusion hfalse

/-- Witness for claim C5: the preservation clauses applied to a concrete
state satisfying the invariant. -/
theorem claim_C5_witness :
    TxIdleInv (mkIdle 8)
  ∧ TxIdleInv (copy_packet_into_Tx_buffer_and_transmit (mkIdle 8) [1, 2]).1
  ∧ TxIdleInv (serial_circular_buffer_irq_handler (mkIdle 8) false true).1 := by
  have h0 : TxIdleInv (mkIdle 8) := by intro _; rfl
  exact ⟨h0, claim_C5.2.1 (mkIdle 8) [1, 2] h0, claim_C5.2.2 (mkIdle 8) false true h0⟩

/-- Claim C6: for in-range indices (the derived receive head ranges over
[0, rx_capacity) as the hardware counter ranges over (0, rx_capacity]),
the unread and unsent counters compute exactly the wraparound-corrected
difference (head - tail + capacity) mod capacity, and both results are
below their capacity. -/
theorem claim_C6 (s : SCB) (receive_counter_value : Nat)
    (hr1 : 0 < receive_counter_value)
    (hr2 : receive_counter_value ≤ s.rx_buffer_size)
    (hrt : s.rx_buffer_tail_index < s.rx_buffer_size)
    (hth : s.tx_buffer_head_index < s.tx_buffer_size)
    (htt : s.tx_buffer_tail_index < s.tx_buffer_size) :
    ((get_number_of_unread_bytes s receive_counter_value : Int)
        = ((get_rx_buffer_head_index s receive_counter_value : Int)
            - (s.rx_buffer_tail_index : Int) + (s.rx_buffer_size : Int))
              % (s.rx_buffer_size : Int)
      ∧ get_number_of_unread_bytes s receive_counter_value < s.rx_buffer_size)
  ∧ ((get_number_of_unsent_bytes s : Int)
        = ((s.tx_buffer_head_index : Int) - (s.tx_buffer_tail_index : Int)
            + (s.tx_buffer_size : Int)) % (s.tx_buffer_size : Int)
      ∧ get_number_of_unsent_bytes s < s.tx_buffer_size) := by
  have main : ∀ hd tl cap : Nat, hd < cap → tl < cap →
      (((if ((hd : Int) - tl) < 0 then (hd : Int) - tl + cap else (hd : Int) - tl).toNat : Int)
          = ((hd : Int) - tl + cap) % cap
        ∧ (if ((hd : Int) - tl) < 0 then (hd : Int) - tl + cap
            else (hd : Int) - tl).toNat < cap) := by
    intro hd tl cap h1 h2
    by_cases hc : ((hd : Int) - tl) < 0
    · rw [if_pos hc]
      refine ⟨?_, by omega⟩
      rw [Int.toNat_of_nonneg (by omega), Int.emod_eq_of_lt (by omega) (by omega)]
    · rw [if_neg hc]
      refine ⟨?_, by omega⟩
      rw [Int.toNat_of_nonneg (by omega), int_emod_shift,
        Int.emod_eq_of_lt (by omega) (by omega)]
  constructor
  · have hhd : get_rx_buffer_head_index s receive_counter_value < s.rx_buffer_size := by
      simp only [get_rx_buffer_head_index]; omega
    simpa [get_number_of_unread_bytes] using
      main (get_rx_buffer_head_index s receive_counter_value)
        s.rx_buffer_tail_index s.rx_buffer_size hhd hrt
  · simpa [get_number_of_unsent_bytes] using
      main s.tx_buffer_head_index s.tx_buffer_tail_index s.tx_buffer_size hth htt

/-- Witness for claim C6: receive capacity 4, hardware counter 1 (head 3),
tail 1 gives 2 unread bytes; an empty transmit side gives 0 unsent. -/
theorem claim_C6_witness :
    get_number_of_unread_bytes { mkIdle 4 with rx_buffer_tail_index := 1 } 1 < 4
  ∧ ((get_number_of_unread_bytes { mkIdle 4 with rx_buffer_tail_index := 1 } 1 : Int)
      = ((get_rx_buffer_head_index { mkIdle 4 with rx_buffer_tail_index := 1 } 1 : Int)
          - (1 : Int) + 4) % 4) := by
  have h := claim_C6 { mkIdle 4 with rx_buffer_tail_index := 1 } 1
    (by decide) (by decide) (by decide) (by decide) (by decide)
  exact ⟨h.1.2, h.1.1⟩

/-- Claim C10: both UART handler entry points fault (dereference NULL)
when invoked on the registry state preceding any init call; init
registers a non-null instance pointer for its port, later registrations
never clear an already set pointer, and with a registered instance the
entry point dispatches to the member interrupt handler. -/
theorem claim_C10 (r : Registry) (inst : SCB)
    (receive_buffer_full transmit_buffer_empty : Bool) :
    (UART0_Handler initialRegistry receive_buffer_full transmit_buffer_empty = none
      ∧ UART1_Handler initialRegistry receive_buffer_full transmit_buffer_empty = none)
  ∧ ((registerInstance r .port0 inst).UART0_ISR_instance_ptr.isSome = true
      ∧ (registerInstance r .port1 inst).UART1_ISR_instance_ptr.isSome = true)
  ∧ (∀ p, r.UART0_ISR_instance_ptr.isSome = true →
        (registerInstance r p inst).UART0_ISR_instance_ptr.isSome = true)
  ∧ (∀ p, r.UART1_ISR_instance_ptr.isSome = true →
        (registerInstance r p inst).UART1_ISR_instance_ptr.isSome = true)
  ∧ (∀ s, r.UART0_ISR_instance_ptr = some s →
        UART0_Handler r receive_buffer_full transmit_buffer_empty
          = some (serial_circular_buffer_irq_handler s receive_buffer_full
              transmit_buffer_empty)) := by
  refine ⟨⟨rfl, rfl⟩, ⟨rfl, rfl⟩, ?_, ?_, ?_⟩
  · intro p hp
    cases p <;> simpa [registerInstance] using hp
  · intro p hp
    cases p <;> simpa [registerInstance] using hp
  · intro s hs
    simp [UART0_Handler, hs]

/-- Witness for claim C10: register an instance for port 0 and observe
that the pointer stays non-null across a later registration and that the
handler dispatches. -/
theorem claim_C10_witness :
    (registerInstance (registerInstance initialRegistry .port0 (mkIdle 4)) .port1
        (mkIdle 4)).UART0_ISR_instance_ptr.isSome = true
  ∧ UART0_Handler (registerInstance initialRegistry .port0 (mkIdle 4)) true false
      = some (serial_circular_buffer_irq_handler (mkIdle 4) true false) := by
  have h := claim_C10 (registerInstance initialRegistry .port0 (mkIdle 4)) (mkIdle 4) true false
  exact ⟨h.2.2.1 .port1 rfl, h.2.2.2.2 (mkIdle 4) rfl⟩

end SerialCB

namespace SerialCB

lemma writeBytes_nil (buf : Nat → Nat) (dest : Nat) : writeBytes buf dest [] = buf := by
  funext j
  simp [writeBytes]

lemma writeBytes_lt (buf : Nat → Nat) (dest : Nat) (src : List Nat) {j : Nat}
    (h : j < dest) : writeBytes buf dest src j = buf j := by
  simp only [writeBytes]
  rw [if_neg (by omega)]

lemma writeBytes_ge (buf : Nat → Nat) (dest : Nat) (src : List Nat) {j : Nat}
    (h : dest + src.length ≤ j) : writeBytes buf dest src j = buf j := by
  simp only [writeBytes]
  rw [if_neg (by omega)]

lemma writeBytes_get (buf : Nat → Nat) (dest : Nat) (src : List Nat) {j : Nat}
    (h1 : dest ≤ j) (h2 : j < dest + src.length) :
    writeBytes buf dest src j = src.getD (j - dest) 0 := by
  simp only [writeBytes]
  rw [if_pos ⟨h1, h2⟩]

lemma readRange_zero (buf : Nat → Nat) (start : Nat) : readRange buf start 0 = [] := rfl

lemma readRange_length (buf : Nat → Nat) (start len : Nat) :
    (readRange buf start len).length = len := by
  simp [readRange]

lemma readRange_congr {f g : Nat → Nat} {start len : Nat}
    (h : ∀ i, i < len → f (start + i) = g (start + i)) :
    readRange f start len = readRange g start len := by
  simp only [readRange]
  apply List.map_congr_left
  intro i hi
  exact h i (List.mem_range.mp hi)

lemma readRange_writeBytes_self (buf : Nat → Nat) (dest : Nat) (src : List Nat) :
    readRange (writeBytes buf dest src) dest src.length = src := by
  apply List.ext_getElem
  · simp [readRange_length]
  · intro i h1 h2
    simp only [readRange, List.getElem_map, List.getElem_range]
    rw [writeBytes_get buf dest src (by omega) (by omega)]
    simp only [Nat.add_sub_cancel_left]
    rw [List.getD_eq_getElem src 0 h2]

lemma readRange_writeBytes_outside (buf : Nat → Nat) (dest : Nat) (src : List Nat)
    {start len : Nat} (h : dest + src.length ≤ start ∨ start + len ≤ dest) :
    readRange (writeBytes buf dest src) start len = readRange buf start len := by
  apply readRange_congr
  intro i hi
  rcases h with h | h
  · exact writeBytes_ge buf dest src (by omega)
  · exact writeBytes_lt buf dest src (by omega)

lemma circRead_zero (buf : Nat → Nat) (start cap : Nat) : circRead buf start 0 cap = [] := rfl

lemma circRead_length (buf : Nat → Nat) (start len cap : Nat) :
    (circRead buf start len cap).length = len := by
  simp [circRead]

lemma circRead_congr {f g : Nat → Nat} {start len cap : Nat}
    (h : ∀ i, i < len → f ((start + i) % cap) = g ((start + i) % cap)) :
    circRead f start len cap = circRead g start len cap := by
  simp only [circRead]
  apply List.map_congr_left
  intro i hi
  exact h i (List.mem_range.mp hi)

lemma circRead_split (f : Nat → Nat) (start m n cap : Nat) :
    circRead f start (m + n) cap
      = circRead f start m cap ++ circRead f ((start + m) % cap) n cap := by
  simp only [circRead]
  rw [List.range_add, List.map_append, List.map_map]
  congr 1
  apply List.map_congr_left
  intro i _
  simp only [Function.comp_apply]
  rw [Nat.mod_add_mod, Nat.add_assoc]

lemma circRead_eq_readRange (f : Nat → Nat) {start len cap : Nat}
    (h : start + len ≤ cap) : circRead f start len cap = readRange f start len := by
  simp only [circRead, readRange]
  apply List.map_congr_left
  intro i hi
  rw [Nat.mod_eq_of_lt (by have := List.mem_range.mp hi; omega)]

lemma getD_take (data : List Nat) {n i : Nat} (h : i < n) :
    (data.take n).getD i 0 = data.getD i 0 := by
  rcases Nat.lt_or_ge i data.length with hi | hi
  · rw [List.getD_eq_getElem _ 0 (by simp; omega), List.getD_eq_getElem _ 0 hi,
      List.getElem_take]
  · rw [List.getD_eq_default _ 0 (by simp; omega), List.getD_eq_default _ 0 (by omega)]

lemma getD_drop (data : List Nat) {n i : Nat} (h : n + i < data.length) :
    (data.drop n).getD i 0 = data.getD (n + i) 0 := by
  rw [List.getD_eq_getElem _ 0 (by simp; omega), List.getD_eq_getElem _ 0 h]
  rw [List.getElem_drop]

end SerialCB

namespace SerialCB

/-- The final transmit buffer contents of an enqueue call: one linear
write at the head, plus a wrapped second write at the start when the
packet rolls over. -/
lemma enq_buf (s : SCB) (data : List Nat) :
    (copy_packet_into_Tx_buffer_and_transmit s data).1.pdc_tx_buffer
      = if s.tx_buffer_size < data.length + s.tx_buffer_head_index then
          writeBytes
            (writeBytes s.pdc_tx_buffer s.tx_buffer_head_index
              (data.take (s.tx_buffer_size - s.tx_buffer_head_index)))
            ((s.tx_buffer_head_index + (s.tx_buffer_size - s.tx_buffer_head_index))
              % s.tx_buffer_size)
            (data.drop (s.tx_buffer_size - s.tx_buffer_head_index))
        else writeBytes s.pdc_tx_buffer s.tx_buffer_head_index data := by
  obtain ⟨rxb, rxs, txb, txs, th, tt, rt, ip, en⟩ := s
  by_cases hro : txs < data.length + th
  · rw [if_pos hro]
    simp only [copy_packet_into_Tx_buffer_and_transmit, if_pos hro]
    cases ip <;> rfl
  · rw [if_neg hro]
    simp only [copy_packet_into_Tx_buffer_and_transmit, if_neg hro]
    cases ip <;> (show writeBytes txb th (data.take data.length) = _) <;> rw [List.take_length]

/-- The transmit head after an enqueue call, in both branches the sum of
the head increments the source performs. -/
lemma enq_head (s : SCB) (data : List Nat) :
    (copy_packet_into_Tx_buffer_and_transmit s data).1.tx_buffer_head_index
      = if s.tx_buffer_size < data.length + s.tx_buffer_head_index then
          ((s.tx_buffer_head_index + (s.tx_buffer_size - s.tx_buffer_head_index))
              % s.tx_buffer_size
            + (data.length + s.tx_buffer_head_index - s.tx_buffer_size)) % s.tx_buffer_size
        else (s.tx_buffer_head_index + data.length) % s.tx_buffer_size := by
  obtain ⟨rxb, rxs, txb, txs, th, tt, rt, ip, en⟩ := s
  by_cases hro : txs < data.length + th
  · rw [if_pos hro]
    simp only [copy_packet_into_Tx_buffer_and_transmit, if_pos hro]
    cases ip <;> rfl
  · rw [if_neg hro]
    simp only [copy_packet_into_Tx_buffer_and_transmit, if_neg hro]
    cases ip <;> rfl

/-- The transmit tail after an enqueue call from an idle transmitter: the
preload advance by the first block size. -/
lemma enq_tail_idle (s : SCB) (data : List Nat)
    (hip : s.pdc_Tx_in_progress = false) :
    (copy_packet_into_Tx_buffer_and_transmit s data).1.tx_buffer_tail_index
      = (s.tx_buffer_tail_index
          + firstSeg s.tx_buffer_size s.tx_buffer_head_index data.length)
            % s.tx_buffer_size := by
  obtain ⟨rxb, rxs, txb, txs, th, tt, rt, ip, en⟩ := s
  cases ip
  · by_cases hro : txs < data.length + th <;>
      simp only [copy_packet_into_Tx_buffer_and_transmit, firstSeg, if_pos, if_neg, hro,
        ite_true, ite_false] <;> rfl
  · exact Bool.noConfusion hip

/-- The transmit tail is untouched by an enqueue call made while a
transfer is outstanding. -/
lemma enq_tail_busy (s : SCB) (data : List Nat)
    (hip : s.pdc_Tx_in_progress = true) :
    (copy_packet_into_Tx_buffer_and_transmit s data).1.tx_buffer_tail_index
      = s.tx_buffer_tail_index := by
  obtain ⟨rxb, rxs, txb, txs, th, tt, rt, ip, en⟩ := s
  cases ip
  · exact Bool.noConfusion hip
  · by_cases hro : txs < data.length + th <;>
      simp only [copy_packet_into_Tx_buffer_and_transmit, if_pos, if_neg, hro,
        ite_true, ite_false] <;> rfl

/-- Fields of the state an enqueue call never touches. -/
lemma enq_frame (s : SCB) (data : List Nat) :
    (copy_packet_into_Tx_buffer_and_transmit s data).1.tx_buffer_size = s.tx_buffer_size
  ∧ (copy_packet_into_Tx_buffer_and_transmit s data).1.rx_buffer_size = s.rx_buffer_size
  ∧ (copy_packet_into_Tx_buffer_and_transmit s data).1.rx_buffer_tail_index
      = s.rx_buffer_tail_index
  ∧ (copy_packet_into_Tx_buffer_and_transmit s data).1.rx_buffer = s.rx_buffer := by
  obtain ⟨rxb, rxs, txb, txs, th, tt, rt, ip, en⟩ := s
  cases ip <;> by_cases hro : txs < data.length + th <;>
    simp only [copy_packet_into_Tx_buffer_and_transmit, if_pos, if_neg, hro,
      ite_true, ite_false] <;> exact ⟨rfl, rfl, rfl, rfl⟩

/-- Event trace of an idle-state enqueue that rolls over: two memcpy
calls and one arm call covering the first block, started at the entry
head. -/
lemma enq_events_idle_roll (s : SCB) (data : List Nat)
    (hip : s.pdc_Tx_in_progress = false)
    (hro : s.tx_buffer_size < data.length + s.tx_buffer_head_index) :
    (copy_packet_into_Tx_buffer_and_transmit s data).2
      = [Event.memcpyTx s.tx_buffer_head_index
           (s.tx_buffer_size - s.tx_buffer_head_index),
         Event.memcpyTx
           ((s.tx_buffer_head_index + (s.tx_buffer_size - s.tx_buffer_head_index))
             % s.tx_buffer_size)
           (data.length + s.tx_buffer_head_index - s.tx_buffer_size),
         Event.armTx s.tx_buffer_head_index (s.tx_buffer_size - s.tx_buffer_head_index)
           (readRange (copy_packet_into_Tx_buffer_and_transmit s data).1.pdc_tx_buffer
             s.tx_buffer_head_index (s.tx_buffer_size - s.tx_buffer_head_index))] := by
  obtain ⟨rxb, rxs, txb, txs, th, tt, rt, ip, en⟩ := s
  cases ip
  · simp only [copy_packet_into_Tx_buffer_and_transmit, if_pos hro]
    rfl
  · exact Bool.noConfusion hip

/-- Event trace of an idle-state enqueue with no rollover: one memcpy
and one arm call covering the whole packet. -/
lemma enq_events_idle_nonroll (s : SCB) (data : List Nat)
    (hip : s.pdc_Tx_in_progress = false)
    (hro : ¬ s.tx_buffer_size < data.length + s.tx_buffer_head_index) :
    (copy_packet_into_Tx_buffer_and_transmit s data).2
      = [Event.memcpyTx s.tx_buffer_head_index data.length,
         Event.armTx s.tx_buffer_head_index data.length
           (readRange (copy_packet_into_Tx_buffer_and_transmit s data).1.pdc_tx_buffer
             s.tx_buffer_head_index data.length)] := by
  obtain ⟨rxb, rxs, txb, txs, th, tt, rt, ip, en⟩ := s
  cases ip
  · simp only [copy_packet_into_Tx_buffer_and_transmit, if_neg hro]
    rfl
  · exact Bool.noConfusion hip

/-- Event trace of a busy-state enqueue that rolls over: the two memcpy
calls only, nothing armed. -/
lemma enq_events_busy_roll (s : SCB) (data : List Nat)
    (hip : s.pdc_Tx_in_progress = true)
    (hro : s.tx_buffer_size < data.length + s.tx_buffer_head_index) :
    (copy_packet_into_Tx_buffer_and_transmit s data).2
      = [Event.memcpyTx s.tx_buffer_head_index
           (s.tx_buffer_size - s.tx_buffer_head_index),
         Event.memcpyTx
           ((s.tx_buffer_head_index + (s.tx_buffer_size - s.tx_buffer_head_index))
             % s.tx_buffer_size)
           (data.length + s.tx_buffer_head_index - s.tx_buffer_size)] := by
  obtain ⟨rxb, rxs, txb, txs, th, tt, rt, ip, en⟩ := s
  cases ip
  · exact Bool.noConfusion hip
  · simp only [copy_packet_into_Tx_buffer_and_transmit, if_pos hro]
    rfl

/-- Event trace of a busy-state enqueue with no rollover: the single
memcpy call, nothing armed. -/
lemma enq_events_busy_nonroll (s : SCB) (data : List Nat)
    (hip : s.pdc_Tx_in_progress = true)
    (hro : ¬ s.tx_buffer_size < data.length + s.tx_buffer_head_index) :
    (copy_packet_into_Tx_buffer_and_transmit s data).2
      = [Event.memcpyTx s.tx_buffer_head_index data.length] := by
  obtain ⟨rxb, rxs, txb, txs, th, tt, rt, ip, en⟩ := s
  cases ip
  · exact Bool.noConfusion hip
  · simp only [copy_packet_into_Tx_buffer_and_transmit, if_neg hro]
    rfl

/-- The interrupt-enable bit after an idle-state enqueue is set (the arm
path enables the transmit-empty interrupt source). -/
lemma enq_en_idle (s : SCB) (data : List Nat)
    (hip : s.pdc_Tx_in_progress = false) :
    (copy_packet_into_Tx_buffer_and_transmit s data).1.tx_empty_irq_enabled = true := by
  obtain ⟨rxb, rxs, txb, txs, th, tt, rt, ip, en⟩ := s
  cases ip
  · by_cases hro : txs < data.length + th <;>
      simp only [copy_packet_into_Tx_buffer_and_transmit, if_pos, if_neg, hro,
        ite_true, ite_false] <;> rfl
  · exact Bool.noConfusion hip

/-- The interrupt-enable bit is untouched by a busy-state enqueue. -/
lemma enq_en_busy (s : SCB) (data : List Nat)
    (hip : s.pdc_Tx_in_progress = true) :
    (copy_packet_into_Tx_buffer_and_transmit s data).1.tx_empty_irq_enabled
      = s.tx_empty_irq_enabled := by
  obtain ⟨rxb, rxs, txb, txs, th, tt, rt, ip, en⟩ := s
  cases ip
  · exact Bool.noConfusion hip
  · by_cases hro : txs < data.length + th <;>
      simp only [copy_packet_into_Tx_buffer_and_transmit, if_pos, if_neg, hro,
        ite_true, ite_false] <;> rfl

end SerialCB

namespace SerialCB

/-- Claim C4 as frozen is false on the code: a zero-length enqueue on an
idle transmitter is not a no-op.  At the concrete idle state of capacity
8, the call flips pdc_Tx_in_progress from false to true (it also arms a
zero-length transfer and enables the transmit-empty interrupt source). -/
theorem claim_C4_counterexample :
    (mkIdle 8).pdc_Tx_in_progress = false
  ∧ (copy_packet_into_Tx_buffer_and_transmit (mkIdle 8) []).1.pdc_Tx_in_progress = true
  ∧ (copy_packet_into_Tx_buffer_and_transmit (mkIdle 8) []).1.tx_empty_irq_enabled = true
  ∧ (mkIdle 8).tx_empty_irq_enabled = false := by
  decide

/-- Claim C4, amended: for in-range indices, a zero-length enqueue copies
no bytes and leaves head, tail and the buffer contents unchanged; with a
transfer in progress it changes nothing at all, while on an idle
transmitter it sets pdc_Tx_in_progress, arms a zero-length transfer at
the head and enables the transmit-empty interrupt source. -/
theorem claim_C4_amended (s : SCB)
    (hh : s.tx_buffer_head_index < s.tx_buffer_size)
    (ht : s.tx_buffer_tail_index < s.tx_buffer_size) :
    (s.pdc_Tx_in_progress = true →
        (copy_packet_into_Tx_buffer_and_transmit s []).1 = s
      ∧ (copy_packet_into_Tx_buffer_and_transmit s []).2
          = [Event.memcpyTx s.tx_buffer_head_index 0])
  ∧ (s.pdc_Tx_in_progress = false →
        (copy_packet_into_Tx_buffer_and_transmit s []).1
          = { s with pdc_Tx_in_progress := true, tx_empty_irq_enabled := true }
      ∧ (copy_packet_into_Tx_buffer_and_transmit s []).2
          = [Event.memcpyTx s.tx_buffer_head_index 0,
             Event.armTx s.tx_buffer_head_index 0 []]) := by
  obtain ⟨rxb, rxs, txb, txs, th, tt, rt, ip, en⟩ := s
  simp only at hh ht
  have hro : ¬ txs < List.length ([] : List Nat) + th := by
    simp only [List.length_nil, Nat.zero_add]
    omega
  cases ip
  · refine ⟨fun h => Bool.noConfusion h, fun _ => ?_⟩
    simp only [copy_packet_into_Tx_buffer_and_transmit, if_neg hro,
      increment_tx_buffer_head_index, increment_tx_buffer_tail_index, initiate_PDC_Tx]
    constructor
    · simp [writeBytes_nil, Nat.mod_eq_of_lt hh, Nat.mod_eq_of_lt ht]
    · simp [readRange_zero, writeBytes_nil]
  · refine ⟨fun _ => ?_, fun h => Bool.noConfusion h⟩
    simp only [copy_packet_into_Tx_buffer_and_transmit, if_neg hro,
      increment_tx_buffer_head_index]
    constructor
    · simp [writeBytes_nil, Nat.mod_eq_of_lt hh]
    · rfl

/-- Witness for the amended claim C4 at a busy state with head 2, tail 2:
the zero-length call leaves the state exactly unchanged. -/
theorem claim_C4_witness :
    (mkSt 8 2 2 true).pdc_Tx_in_progress = true
  ∧ (copy_packet_into_Tx_buffer_and_transmit (mkSt 8 2 2 true) []).1 = mkSt 8 2 2 true := by
  have h := (claim_C4_amended (mkSt 8 2 2 true) (by decide) (by decide)).1 rfl
  exact ⟨rfl, h.1⟩

/-- Claim C3: an enqueue of a nonempty packet of at most tx_capacity
bytes on an idle transmitter writes the packet as a first block of
firstSeg bytes at the entry head and (on rollover) a second block of
secondSeg bytes at the start of the buffer, leaves every other buffer
index unchanged, advances the head by the packet length modulo the
capacity, preloads the tail by firstSeg, and arms exactly one run of
firstSeg bytes starting at the entry head. -/
theorem claim_C3 (s : SCB) (data : List Nat)
    (hcap : 0 < s.tx_buffer_size)
    (hip : s.pdc_Tx_in_progress = false)
    (hh : s.tx_buffer_head_index < s.tx_buffer_size)
    (ht : s.tx_buffer_tail_index < s.tx_buffer_size)
    (hL0 : 0 < data.length) (hL : data.length ≤ s.tx_buffer_size) :
    (∀ i, i < firstSeg s.tx_buffer_size s.tx_buffer_head_index data.length →
        (copy_packet_into_Tx_buffer_and_transmit s data).1.pdc_tx_buffer
            (s.tx_buffer_head_index + i) = data.getD i 0)
  ∧ (∀ i, i < secondSeg s.tx_buffer_size s.tx_buffer_head_index data.length →
        (copy_packet_into_Tx_buffer_and_transmit s data).1.pdc_tx_buffer i
          = data.getD (firstSeg s.tx_buffer_size s.tx_buffer_head_index data.length + i) 0)
  ∧ (∀ j, secondSeg s.tx_buffer_size s.tx_buffer_head_index data.length ≤ j →
        j < s.tx_buffer_head_index →
        (copy_packet_into_Tx_buffer_and_transmit s data).1.pdc_tx_buffer j
          = s.pdc_tx_buffer j)
  ∧ (∀ j, s.tx_buffer_head_index
        + firstSeg s.tx_buffer_size s.tx_buffer_head_index data.length ≤ j →
        (copy_packet_into_Tx_buffer_and_transmit s data).1.pdc_tx_buffer j
          = s.pdc_tx_buffer j)
  ∧ (copy_packet_into_Tx_buffer_and_transmit s data).1.tx_buffer_head_index
      = (s.tx_buffer_head_index + data.length) % s.tx_buffer_size
  ∧ (copy_packet_into_Tx_buffer_and_transmit s data).1.tx_buffer_tail_index
      = (s.tx_buffer_tail_index
          + firstSeg s.tx_buffer_size s.tx_buffer_head_index data.length)
            % s.tx_buffer_size
  ∧ armRuns (copy_packet_into_Tx_buffer_and_transmit s data).2
      = [(s.tx_buffer_head_index,
          firstSeg s.tx_buffer_size s.tx_buffer_head_index data.length)] := by
  have hbuf := enq_buf s data
  have hhead := enq_head s data
  have htail := enq_tail_idle s data hip
  by_cases hro : s.tx_buffer_size < data.length + s.tx_buffer_head_index
  · have hfirst : firstSeg s.tx_buffer_size s.tx_buffer_head_index data.length
        = s.tx_buffer_size - s.tx_buffer_head_index := if_pos hro
    have hsecond : secondSeg s.tx_buffer_size s.tx_buffer_head_index data.length
        = data.length + s.tx_buffer_head_index - s.tx_buffer_size := by
      simp only [secondSeg, hfirst]
      omega
    have hz : (s.tx_buffer_head_index
        + (s.tx_buffer_size - s.tx_buffer_head_index)) % s.tx_buffer_size = 0 := by
      rw [show s.tx_buffer_head_index + (s.tx_buffer_size - s.tx_buffer_head_index)
          = s.tx_buffer_size by omega, Nat.mod_self]
    rw [if_pos hro] at hbuf hhead
    rw [hz] at hbuf hhead
    have hlt : (data.take (s.tx_buffer_size - s.tx_buffer_head_index)).length
        = s.tx_buffer_size - s.tx_buffer_head_index := by
      rw [List.length_take]
      omega
    have hld : (data.drop (s.tx_buffer_size - s.tx_buffer_head_index)).length
        = data.length - (s.tx_buffer_size - s.tx_buffer_head_index) :=
      List.length_drop _ _
    refine ⟨?_, ?_, ?_, ?_, ?_, ?_, ?_⟩
    · intro i hi
      rw [hfirst] at hi
      rw [hbuf, writeBytes_ge _ _ _ (by rw [hld]; omega),
        writeBytes_get _ _ _ (by omega) (by rw [hlt]; omega),
        Nat.add_sub_cancel_left, getD_take data hi]
    · intro i hi
      rw [hsecond] at hi
      rw [hbuf, writeBytes_get _ _ _ (by omega) (by rw [hld]; omega), Nat.sub_zero,
        getD_drop data (by omega), hfirst]
    · intro j hj1 hj2
      rw [hsecond] at hj1
      rw [hbuf, writeBytes_ge _ _ _ (by rw [hld]; omega),
        writeBytes_lt _ _ _ hj2]
    · intro j hj
      rw [hfirst] at hj
      rw [hbuf, writeBytes_ge _ _ _ (by rw [hld]; omega),
        writeBytes_ge _ _ _ (by rw [hlt]; omega)]
    · rw [hhead, Nat.zero_add,
        show s.tx_buffer_head_index + data.length
          = (data.length + s.tx_buffer_head_index - s.tx_buffer_size) + s.tx_buffer_size
            by omega,
        Nat.add_mod_right]
    · exact htail
    · rw [enq_events_idle_roll s data hip hro, hfirst]
      rfl
  · have hfirst : firstSeg s.tx_buffer_size s.tx_buffer_head_index data.length
        = data.length := if_neg hro
    have hsecond : secondSeg s.tx_buffer_size s.tx_buffer_head_index data.length = 0 := by
      simp only [secondSeg, hfirst]
      omega
    rw [if_neg hro] at hbuf hhead
    refine ⟨?_, ?_, ?_, ?_, ?_, ?_, ?_⟩
    · intro i hi
      rw [hfirst] at hi
      rw [hbuf, writeBytes_get _ _ _ (by omega) (by omega), Nat.add_sub_cancel_left]
    · intro i hi
      rw [hsecond] at hi
      omega
    · intro j hj1 hj2
      rw [hbuf, writeBytes_lt _ _ _ hj2]
    · intro j hj
      rw [hfirst] at hj
      rw [hbuf, writeBytes_ge _ _ _ hj]
    · exact hhead
    · exact htail
    · rw [enq_events_idle_nonroll s data hip hro, hfirst]
      rfl

/-- Witness for claim C3 at the scenario of the specification: capacity
8, head and tail 6, packet [65, 66, 67, 68, 69]; the first block [65, 66]
lands at indices 6 and 7, the second block [67, 68, 69] at indices 0, 1,
2; the head ends at 3, the tail is preloaded to 0, and one run of 2 bytes
is armed at index 6. -/
theorem claim_C3_witness :
    (copy_packet_into_Tx_buffer_and_transmit (mkSt 8 6 6 false) [65, 66, 67, 68, 69]).1.pdc_tx_buffer 6 = 65
  ∧ (copy_packet_into_Tx_buffer_and_transmit (mkSt 8 6 6 false) [65, 66, 67, 68, 69]).1.pdc_tx_buffer 7 = 66
  ∧ (copy_packet_into_Tx_buffer_and_transmit (mkSt 8 6 6 false) [65, 66, 67, 68, 69]).1.pdc_tx_buffer 0 = 67
  ∧ (copy_packet_into_Tx_buffer_and_transmit (mkSt 8 6 6 false) [65, 66, 67, 68, 69]).1.pdc_tx_buffer 2 = 69
  ∧ (copy_packet_into_Tx_buffer_and_transmit (mkSt 8 6 6 false) [65, 66, 67, 68, 69]).1.tx_buffer_head_index = 3
  ∧ (copy_packet_into_Tx_buffer_and_transmit (mkSt 8 6 6 false) [65, 66, 67, 68, 69]).1.tx_buffer_tail_index = 0
  ∧ armRuns (copy_packet_into_Tx_buffer_and_transmit (mkSt 8 6 6 false) [65, 66, 67, 68, 69]).2 = [(6, 2)] := by
  have h := claim_C3 (mkSt 8 6 6 false) [65, 66, 67, 68, 69]
    (by decide) (by decide) (by decide) (by decide) (by decide) (by decide)
  refine ⟨?_, ?_, ?_, ?_, ?_, ?_, ?_⟩
  · exact h.1 0 (by decide)
  · exact h.1 1 (by decide)
  · exact h.2.1 0 (by decide)
  · exact h.2.1 2 (by decide)
  · have := h.2.2.2.2.1
    simpa using this
  · have := h.2.2.2.2.2.1
    simpa using this
  · have := h.2.2.2.2.2.2
    simpa using this

end SerialCB

namespace SerialCB

/-- Claim C7: with in-range entry indices and a packet of at most
tx_capacity bytes, every hardware-visible access of read_next_byte, of
enqueue_and_send and of the interrupt handler stays inside its storage
region, and every stored index is again inside [0, capacity) after the
operation. -/
theorem claim_C7 (s : SCB) (data : List Nat)
    (receive_buffer_full transmit_buffer_empty : Bool)
    (hrcap : 0 < s.rx_buffer_size) (htcap : 0 < s.tx_buffer_size)
    (hrt : s.rx_buffer_tail_index < s.rx_buffer_size)
    (hth : s.tx_buffer_head_index < s.tx_buffer_size)
    (htt : s.tx_buffer_tail_index < s.tx_buffer_size)
    (hlen : data.length ≤ s.tx_buffer_size) :
    (s.rx_buffer_tail_index < s.rx_buffer_size
      ∧ (get_latest_byte s).2.rx_buffer_tail_index < s.rx_buffer_size)
  ∧ ((∀ e ∈ (copy_packet_into_Tx_buffer_and_transmit s data).2,
        eventInBounds s.tx_buffer_size s.rx_buffer_size e)
      ∧ (copy_packet_into_Tx_buffer_and_transmit s data).1.tx_buffer_head_index
          < s.tx_buffer_size
      ∧ (copy_packet_into_Tx_buffer_and_transmit s data).1.tx_buffer_tail_index
          < s.tx_buffer_size)
  ∧ ((∀ e ∈ (serial_circular_buffer_irq_handler s receive_buffer_full
          transmit_buffer_empty).2,
        eventInBounds s.tx_buffer_size s.rx_buffer_size e)
      ∧ (serial_circular_buffer_irq_handler s receive_buffer_full
          transmit_buffer_empty).1.tx_buffer_head_index < s.tx_buffer_size
      ∧ (serial_circular_buffer_irq_handler s receive_buffer_full
          transmit_buffer_empty).1.tx_buffer_tail_index < s.tx_buffer_size
      ∧ (serial_circular_buffer_irq_handler s receive_buffer_full
          transmit_buffer_empty).1.rx_buffer_tail_index < s.rx_buffer_size) := by
  refine ⟨⟨hrt, ?_⟩, ⟨?_, ?_, ?_⟩, ?_⟩
  · exact Nat.mod_lt _ hrcap
  · -- enqueue events
    cases hip : s.pdc_Tx_in_progress
    · by_cases hro : s.tx_buffer_size < data.length + s.tx_buffer_head_index
      · have hz : (s.tx_buffer_head_index
            + (s.tx_buffer_size - s.tx_buffer_head_index)) % s.tx_buffer_size = 0 := by
          rw [show s.tx_buffer_head_index + (s.tx_buffer_size - s.tx_buffer_head_index)
              = s.tx_buffer_size by omega, Nat.mod_self]
        rw [enq_events_idle_roll s data hip hro, hz]
        intro e he
        simp only [List.mem_cons, List.not_mem_nil, or_false] at he
        rcases he with rfl | rfl | rfl <;> simp only [eventInBounds] <;> omega
      · rw [enq_events_idle_nonroll s data hip hro]
        intro e he
        simp only [List.mem_cons, List.not_mem_nil, or_false] at he
        rcases he with rfl | rfl <;> simp only [eventInBounds] <;> omega
    · by_cases hro : s.tx_buffer_size < data.length + s.tx_buffer_head_index
      · have hz : (s.tx_buffer_head_index
            + (s.tx_buffer_size - s.tx_buffer_head_index)) % s.tx_buffer_size = 0 := by
          rw [show s.tx_buffer_head_index + (s.tx_buffer_size - s.tx_buffer_head_index)
              = s.tx_buffer_size by omega, Nat.mod_self]
        rw [enq_events_busy_roll s data hip hro, hz]
        intro e he
        simp only [List.mem_cons, List.not_mem_nil, or_false] at he
        rcases he with rfl | rfl <;> simp only [eventInBounds] <;> omega
      · rw [enq_events_busy_nonroll s data hip hro]
        intro e he
        simp only [List.mem_cons, List.not_mem_nil, or_false] at he
        rcases he with rfl <;> simp only [eventInBounds] <;> omega
  · rw [enq_head s data]
    split_ifs <;> exact Nat.mod_lt _ htcap
  · cases hip : s.pdc_Tx_in_progress
    · rw [enq_tail_idle s data hip]
      exact Nat.mod_lt _ htcap
    · rw [enq_tail_busy s data hip]
      exact htt
  · -- interrupt handler
    cases transmit_buffer_empty
    · refine ⟨?_, hth, htt, hrt⟩
      intro e he
      rw [show serial_circular_buffer_irq_handler s receive_buffer_full false
          = (s, if receive_buffer_full then [Event.armRx 0 s.rx_buffer_size] else [])
          from rfl] at he
      cases receive_buffer_full
      · simp at he
      · simp at he
        subst he
        simp only [eventInBounds]
        omega
    · by_cases h0 : get_number_of_unsent_bytes s = 0
      · rw [irq_zero_eq s receive_buffer_full h0]
        refine ⟨?_, hth, htt, hrt⟩
        intro e he
        cases receive_buffer_full
        · simp at he
        · simp at he
          subst he
          simp only [eventInBounds]
          omega
      · rw [irq_pos_eq s receive_buffer_full h0]
        have hrun : s.tx_buffer_tail_index + txNextRunLen s ≤ s.tx_buffer_size := by
          simp only [txNextRunLen]
          split_ifs with hw
          · omega
          · rw [unsent_eq_if s hth htt, if_pos (by omega)]
            omega
        refine ⟨?_, hth, Nat.mod_lt _ htcap, hrt⟩
        intro e he
        cases receive_buffer_full
        · simp at he
          subst he
          simp only [eventInBounds]
          omega
        · simp at he
          rcases he with rfl | rfl <;> simp only [eventInBounds] <;> omega

/-- Witness for claim C7: a wrapped enqueue at head 6 of capacity 8 and a
continuation interrupt, all accesses in bounds. -/
theorem claim_C7_witness :
    (∀ e ∈ (copy_packet_into_Tx_buffer_and_transmit (mkSt 8 6 6 false) [1, 2, 3, 4, 5]).2,
        eventInBounds 8 8 e)
  ∧ (copy_packet_into_Tx_buffer_and_transmit (mkSt 8 6 6 false) [1, 2, 3, 4, 5]).1.tx_buffer_head_index < 8
  ∧ (∀ e ∈ (serial_circular_buffer_irq_handler (mkSt 8 6 6 false) true true).2,
        eventInBounds 8 8 e) := by
  have h := claim_C7 (mkSt 8 6 6 false) [1, 2, 3, 4, 5] true true
    (by decide) (by decide) (by decide) (by decide) (by decide) (by decide)
  exact ⟨h.2.1.1, h.2.1.2.1, h.2.2.1⟩

end SerialCB

namespace SerialCB

/-- Claim C8: enqueueing a nonempty packet of at most tx_capacity bytes
from an idle transmitter (in_progress false, head = tail) and then
driving the transmit-complete interrupt drains within three invocations:
pdc_Tx_in_progress is false, the tail equals the head, and no bytes are
pending. -/
theorem claim_C8 (s : SCB) (data : List Nat)
    (hcap : 0 < s.tx_buffer_size)
    (hip : s.pdc_Tx_in_progress = false)
    (hht : s.tx_buffer_head_index = s.tx_buffer_tail_index)
    (hh : s.tx_buffer_head_index < s.tx_buffer_size)
    (hL0 : 0 < data.length) (hL : data.length ≤ s.tx_buffer_size) :
    (drainTx (copy_packet_into_Tx_buffer_and_transmit s data).1 3).pdc_Tx_in_progress = false
  ∧ (drainTx (copy_packet_into_Tx_buffer_and_transmit s data).1 3).tx_buffer_tail_index
      = (drainTx (copy_packet_into_Tx_buffer_and_transmit s data).1 3).tx_buffer_head_index
  ∧ get_number_of_unsent_bytes (drainTx (copy_packet_into_Tx_buffer_and_transmit s data).1 3)
      = 0 := by
  have hsize := (enq_frame s data).1
  have hip1 := enq_ip s data
  have hhead1 := enq_head s data
  have htail1 := enq_tail_idle s data hip
  set s1 := (copy_packet_into_Tx_buffer_and_transmit s data).1 with hs1
  by_cases hro : s.tx_buffer_size < data.length + s.tx_buffer_head_index
  · -- rollover: two continuation interrupts
    rw [if_pos hro] at hhead1
    have hz : (s.tx_buffer_head_index
        + (s.tx_buffer_size - s.tx_buffer_head_index)) % s.tx_buffer_size = 0 := by
      rw [show s.tx_buffer_head_index + (s.tx_buffer_size - s.tx_buffer_head_index)
          = s.tx_buffer_size by omega, Nat.mod_self]
    have hh1 : s1.tx_buffer_head_index
        = data.length + s.tx_buffer_head_index - s.tx_buffer_size := by
      rw [hhead1, hz, Nat.zero_add, Nat.mod_eq_of_lt (by omega)]
    have ht1 : s1.tx_buffer_tail_index = 0 := by
      rw [htail1, firstSeg, if_pos hro, ← hht, hz]
    have hb1 : s1.tx_buffer_head_index < s1.tx_buffer_size := by
      rw [hh1, hsize]
      omega
    have hb2 : s1.tx_buffer_tail_index < s1.tx_buffer_size := by
      rw [ht1, hsize]
      omega
    have hget1 : get_number_of_unsent_bytes s1
        = data.length + s.tx_buffer_head_index - s.tx_buffer_size := by
      rw [unsent_eq_if s1 hb1 hb2, if_pos (by omega), ht1, hh1]
      omega
    have hne1 : get_number_of_unsent_bytes s1 ≠ 0 := by
      rw [hget1]
      omega
    have hnlt : ¬ s1.tx_buffer_head_index < s1.tx_buffer_tail_index := by
      rw [ht1]
      omega
    have hn : txNextRunLen s1 = data.length + s.tx_buffer_head_index - s.tx_buffer_size := by
      rw [txNextRunLen, if_neg hnlt, hget1]
    have e1 := irq_pos_eq s1 false hne1
    have htail2 : (s1.tx_buffer_tail_index + txNextRunLen s1) % s1.tx_buffer_size
        = s1.tx_buffer_head_index := by
      rw [ht1, hn, Nat.zero_add, hsize, Nat.mod_eq_of_lt (by omega), hh1]
    have hget2 : get_number_of_unsent_bytes
        { s1 with
            tx_empty_irq_enabled := true,
            tx_buffer_tail_index :=
              (s1.tx_buffer_tail_index + txNextRunLen s1) % s1.tx_buffer_size,
            pdc_Tx_in_progress := true } = 0 := by
      refine (unsent_eq_zero_iff _ ?_ ?_).mpr ?_
      · exact hb1
      · show (s1.tx_buffer_tail_index + txNextRunLen s1) % s1.tx_buffer_size
            < s1.tx_buffer_size
        exact Nat.mod_lt _ (by omega)
      · show s1.tx_buffer_head_index
            = (s1.tx_buffer_tail_index + txNextRunLen s1) % s1.tx_buffer_size
        rw [htail2]
    have e2 := irq_zero_eq
      { s1 with
          tx_empty_irq_enabled := true,
          tx_buffer_tail_index :=
            (s1.tx_buffer_tail_index + txNextRunLen s1) % s1.tx_buffer_size,
          pdc_Tx_in_progress := true } false hget2
    have hd : drainTx s1 3
        = { s1 with
              tx_empty_irq_enabled := false,
              tx_buffer_tail_index :=
                (s1.tx_buffer_tail_index + txNextRunLen s1) % s1.tx_buffer_size,
              pdc_Tx_in_progress := false } := by
      calc drainTx s1 3
          = drainTx (serial_circular_buffer_irq_handler s1 false true).1 2 := by
            rw [show drainTx s1 3
                = if s1.pdc_Tx_in_progress then
                    drainTx (serial_circular_buffer_irq_handler s1 false true).1 2
                  else s1 from rfl, hip1]
            rfl
        _ = drainTx
              { s1 with
                  tx_empty_irq_enabled := true,
                  tx_buffer_tail_index :=
                    (s1.tx_buffer_tail_index + txNextRunLen s1) % s1.tx_buffer_size,
                  pdc_Tx_in_progress := true } 2 := by rw [e1]
        _ = _ := by
            rw [show drainTx
                { s1 with
                    tx_empty_irq_enabled := true,
                    tx_buffer_tail_index :=
                      (s1.tx_buffer_tail_index + txNextRunLen s1) % s1.tx_buffer_size,
                    pdc_Tx_in_progress := true } 2
                = drainTx (serial_circular_buffer_irq_handler
                    { s1 with
                        tx_empty_irq_enabled := true,
                        tx_buffer_tail_index :=
                          (s1.tx_buffer_tail_index + txNextRunLen s1) % s1.tx_buffer_size,
                        pdc_Tx_in_progress := true } false true).1 1 from rfl, e2]
            rfl
    rw [hd]
    refine ⟨rfl, ?_, ?_⟩
    · show (s1.tx_buffer_tail_index + txNextRunLen s1) % s1.tx_buffer_size
          = s1.tx_buffer_head_index
      exact htail2
    · refine (unsent_eq_zero_iff _ ?_ ?_).mpr ?_
      · exact hb1
      · show (s1.tx_buffer_tail_index + txNextRunLen s1) % s1.tx_buffer_size
            < s1.tx_buffer_size
        exact Nat.mod_lt _ (by omega)
      · show s1.tx_buffer_head_index
            = (s1.tx_buffer_tail_index + txNextRunLen s1) % s1.tx_buffer_size
        rw [htail2]
  · -- no rollover: a single completion interrupt goes idle
    rw [if_neg hro] at hhead1
    have hteq : s1.tx_buffer_tail_index = s1.tx_buffer_head_index := by
      rw [htail1, hhead1, firstSeg, if_neg hro, hht]
    have hb1 : s1.tx_buffer_head_index < s1.tx_buffer_size := by
      rw [hhead1, hsize]
      exact Nat.mod_lt _ hcap
    have hb2 : s1.tx_buffer_tail_index < s1.tx_buffer_size := by
      rw [hteq]
      exact hb1
    have h0 : get_number_of_unsent_bytes s1 = 0 :=
      (unsent_eq_zero_iff s1 hb1 hb2).mpr hteq.symm
    have e1 := irq_zero_eq s1 false h0
    have hd : drainTx s1 3
        = { s1 with pdc_Tx_in_progress := false, tx_empty_irq_enabled := false } := by
      calc drainTx s1 3
          = drainTx (serial_circular_buffer_irq_handler s1 false true).1 2 := by
            rw [show drainTx s1 3
                = if s1.pdc_Tx_in_progress then
                    drainTx (serial_circular_buffer_irq_handler s1 false true).1 2
                  else s1 from rfl, hip1]
            rfl
        _ = drainTx { s1 with pdc_Tx_in_progress := false, tx_empty_irq_enabled := false } 2 := by
            rw [e1]
        _ = _ := rfl
    rw [hd]
    exact ⟨rfl, hteq, h0⟩

/-- Witness for claim C8 on the wraparound scenario: capacity 8, head
and tail 6, five bytes enqueued, the drain goes idle with nothing
pending. -/
theorem claim_C8_witness :
    (drainTx (copy_packet_into_Tx_buffer_and_transmit (mkSt 8 6 6 false)
        [65, 66, 67, 68, 69]).1 3).pdc_Tx_in_progress = false
  ∧ get_number_of_unsent_bytes
      (drainTx (copy_packet_into_Tx_buffer_and_transmit (mkSt 8 6 6 false)
        [65, 66, 67, 68, 69]).1 3) = 0 := by
  have h := claim_C8 (mkSt 8 6 6 false) [65, 66, 67, 68, 69]
    (by decide) (by decide) (by decide) (by decide) (by decide) (by decide)
  exact ⟨h.1, h.2.2⟩

end SerialCB

namespace SerialCB

lemma mod_mid {a cap : Nat} (h1 : cap ≤ a) (h2 : a < cap + cap) : a % cap = a - cap := by
  rw [Nat.mod_eq_sub_mod h1, Nat.mod_eq_of_lt (by omega)]

lemma armedBytes_append (l1 l2 : List Event) :
    armedBytes (l1 ++ l2) = armedBytes l1 ++ armedBytes l2 := by
  induction l1 with
  | nil => rfl
  | cons e l ih => cases e <;> simp [armedBytes, ih]

/-- The head sits at distance unsent_byte_count from the tail, modulo the
buffer size. -/
lemma unsent_head_eq (s : SCB)
    (hh : s.tx_buffer_head_index < s.tx_buffer_size)
    (ht : s.tx_buffer_tail_index < s.tx_buffer_size) :
    s.tx_buffer_head_index
      = (s.tx_buffer_tail_index + get_number_of_unsent_bytes s) % s.tx_buffer_size := by
  rw [unsent_eq_if s hh ht]
  split_ifs with hle
  · rw [show s.tx_buffer_tail_index + (s.tx_buffer_head_index - s.tx_buffer_tail_index)
        = s.tx_buffer_head_index by omega, Nat.mod_eq_of_lt hh]
  · rw [show s.tx_buffer_tail_index
        + (s.tx_buffer_head_index + s.tx_buffer_size - s.tx_buffer_tail_index)
        = s.tx_buffer_head_index + s.tx_buffer_size by omega,
      mod_mid (by omega) (by omega)]
    omega

/-- unsent_eq_if with the three relevant fields given by explicit
equations, so that the case split lands on the given values. -/
lemma unsent_eq_if_fields (s : SCB) {hd tl cap : Nat}
    (hhead : s.tx_buffer_head_index = hd) (htail : s.tx_buffer_tail_index = tl)
    (hsize : s.tx_buffer_size = cap) (hhb : hd < cap) (htb : tl < cap) :
    get_number_of_unsent_bytes s = if tl ≤ hd then hd - tl else hd + cap - tl := by
  subst hhead
  subst htail
  subst hsize
  exact unsent_eq_if s hhb htb

/-- txPending with the three relevant fields given by explicit equations. -/
lemma txPending_fields (s : SCB) {buf : Nat → Nat} {tl cap : Nat}
    (hbuf : s.pdc_tx_buffer = buf) (htail : s.tx_buffer_tail_index = tl)
    (hsize : s.tx_buffer_size = cap) :
    txPending s = circRead buf tl (get_number_of_unsent_bytes s) cap := by
  rw [txPending, hbuf, htail, hsize]

/-- Circular distance from tl to (tl + m) mod cap is m when m < cap. -/
lemma if_dist_round {tl m cap : Nat} (ht : tl < cap) (hm : m < cap) :
    (if tl ≤ (tl + m) % cap then (tl + m) % cap - tl else (tl + m) % cap + cap - tl)
      = m := by
  rcases Nat.lt_or_ge (tl + m) cap with hlt | hge
  · rw [Nat.mod_eq_of_lt hlt, if_pos (by omega)]
    omega
  · rw [mod_mid hge (by omega), if_neg (by omega)]
    omega

/-- A pending position (tl + i) mod cap, i below the pending count u, is
never a written position (tl + u + j) mod cap, j below the write length,
provided everything fits in the buffer. -/
lemma circ_write_avoid {cap tl u len i j : Nat} (ht : tl < cap)
    (hu : i < u) (hL : j < len) (hsum : u + len ≤ cap) :
    (tl + i) % cap ≠ (tl + (u + j)) % cap := by
  intro heq
  rcases Nat.lt_or_ge (tl + i) cap with ha | ha <;>
    rcases Nat.lt_or_ge (tl + (u + j)) cap with hb | hb
  · rw [Nat.mod_eq_of_lt ha, Nat.mod_eq_of_lt hb] at heq
    omega
  · rw [Nat.mod_eq_of_lt ha, mod_mid hb (by omega)] at heq
    omega
  · rw [mod_mid ha (by omega), Nat.mod_eq_of_lt hb] at heq
    omega
  · rw [mod_mid ha (by omega), mod_mid hb (by omega)] at heq
    omega

/-- The head after any enqueue call is the entry head advanced by the
packet length, modulo the buffer size. -/
lemma enq_head_mod (s : SCB) (data : List Nat)
    (hcap : 0 < s.tx_buffer_size)
    (hh : s.tx_buffer_head_index < s.tx_buffer_size) :
    (copy_packet_into_Tx_buffer_and_transmit s data).1.tx_buffer_head_index
      = (s.tx_buffer_head_index + data.length) % s.tx_buffer_size := by
  rw [enq_head]
  split_ifs with hro
  · rw [show s.tx_buffer_head_index + (s.tx_buffer_size - s.tx_buffer_head_index)
        = s.tx_buffer_size by omega, Nat.mod_self, Nat.zero_add,
      show s.tx_buffer_head_index + data.length
        = (data.length + s.tx_buffer_head_index - s.tx_buffer_size) + s.tx_buffer_size
        by omega,
      Nat.add_mod_right]
  · rfl

end SerialCB

namespace SerialCB

/-- Unsent count of a state that only moved its tail (and flags). -/
lemma unsent_upd_tail (s : SCB) (tl' : Nat) (b1 b2 : Bool)
    (hh : s.tx_buffer_head_index < s.tx_buffer_size)
    (htb : tl' < s.tx_buffer_size) :
    get_number_of_unsent_bytes
      { s with tx_empty_irq_enabled := b1, tx_buffer_tail_index := tl',
               pdc_Tx_in_progress := b2 }
      = if tl' ≤ s.tx_buffer_head_index then s.tx_buffer_head_index - tl'
        else s.tx_buffer_head_index + s.tx_buffer_size - tl' :=
  unsent_eq_if_fields _ rfl rfl rfl hh htb

/-- Pending segment of a state that only moved its tail (and flags). -/
lemma txPending_upd_tail (s : SCB) (tl' : Nat) (b1 b2 : Bool) :
    txPending
      { s with tx_empty_irq_enabled := b1, tx_buffer_tail_index := tl',
               pdc_Tx_in_progress := b2 }
      = circRead s.pdc_tx_buffer tl'
          (get_number_of_unsent_bytes
            { s with tx_empty_irq_enabled := b1, tx_buffer_tail_index := tl',
                     pdc_Tx_in_progress := b2 })
          s.tx_buffer_size := rfl

/-- One transmit-complete interrupt invocation: the armed bytes move from
the front of the pending segment to the arm trace, nothing else moves. -/
lemma step_irq (s : SCB)
    (hcap : 0 < s.tx_buffer_size)
    (hh : s.tx_buffer_head_index < s.tx_buffer_size)
    (ht : s.tx_buffer_tail_index < s.tx_buffer_size) :
    armedBytes (serial_circular_buffer_irq_handler s false true).2
        ++ txPending (serial_circular_buffer_irq_handler s false true).1
      = txPending s
  ∧ (serial_circular_buffer_irq_handler s false true).1.tx_buffer_size = s.tx_buffer_size
  ∧ (serial_circular_buffer_irq_handler s false true).1.tx_buffer_head_index
      = s.tx_buffer_head_index
  ∧ (serial_circular_buffer_irq_handler s false true).1.tx_buffer_tail_index
      < s.tx_buffer_size
  ∧ get_number_of_unsent_bytes (serial_circular_buffer_irq_handler s false true).1
      ≤ get_number_of_unsent_bytes s
  ∧ ((serial_circular_buffer_irq_handler s false true).1.pdc_Tx_in_progress = true →
      get_number_of_unsent_bytes s ≠ 0)
  ∧ ((serial_circular_buffer_irq_handler s false true).1.pdc_Tx_in_progress = false →
      get_number_of_unsent_bytes (serial_circular_buffer_irq_handler s false true).1 = 0) := by
  by_cases h0 : get_number_of_unsent_bytes s = 0
  · rw [irq_zero_eq s false h0]
    exact ⟨rfl, rfl, rfl, ht, Nat.le.refl, fun htr => Bool.noConfusion htr, fun _ => h0⟩
  · rw [irq_pos_eq s false h0]
    have htb : (s.tx_buffer_tail_index + txNextRunLen s) % s.tx_buffer_size
        < s.tx_buffer_size := Nat.mod_lt _ hcap
    by_cases hw : s.tx_buffer_head_index < s.tx_buffer_tail_index
    · -- pending bytes wrap: send only up to the end of the buffer
      have hn : txNextRunLen s = s.tx_buffer_size - s.tx_buffer_tail_index := by
        rw [txNextRunLen, if_pos hw]
      have hu : get_number_of_unsent_bytes s
          = s.tx_buffer_head_index + s.tx_buffer_size - s.tx_buffer_tail_index := by
        rw [unsent_eq_if s hh ht, if_neg (by omega)]
      have htl0 : (s.tx_buffer_tail_index + txNextRunLen s) % s.tx_buffer_size = 0 := by
        rw [hn, show s.tx_buffer_tail_index + (s.tx_buffer_size - s.tx_buffer_tail_index)
            = s.tx_buffer_size by omega, Nat.mod_self]
      have hg' : get_number_of_unsent_bytes
          ({ s with
              tx_empty_irq_enabled := true,
              tx_buffer_tail_index :=
                (s.tx_buffer_tail_index + txNextRunLen s) % s.tx_buffer_size,
              pdc_Tx_in_progress := true }) = s.tx_buffer_head_index := by
        rw [unsent_upd_tail s _ true true hh htb, htl0, if_pos (Nat.zero_le _)]
        omega
      refine ⟨?_, rfl, rfl, htb, ?_, fun _ => h0, fun hfalse => Bool.noConfusion hfalse⟩
      · show armedBytes
            [Event.armTx s.tx_buffer_tail_index (txNextRunLen s)
              (readRange s.pdc_tx_buffer s.tx_buffer_tail_index (txNextRunLen s))]
            ++ txPending
              { s with
                  tx_empty_irq_enabled := true,
                  tx_buffer_tail_index :=
                    (s.tx_buffer_tail_index + txNextRunLen s) % s.tx_buffer_size,
                  pdc_Tx_in_progress := true }
          = txPending s
        rw [txPending_upd_tail, hg', htl0,
          txPending_fields s rfl rfl rfl, hu,
          show s.tx_buffer_head_index + s.tx_buffer_size - s.tx_buffer_tail_index
            = (s.tx_buffer_size - s.tx_buffer_tail_index) + s.tx_buffer_head_index
            by omega,
          circRead_split,
          show (s.tx_buffer_tail_index + (s.tx_buffer_size - s.tx_buffer_tail_index))
              % s.tx_buffer_size = 0 by
            rw [show s.tx_buffer_tail_index + (s.tx_buffer_size - s.tx_buffer_tail_index)
                = s.tx_buffer_size by omega, Nat.mod_self],
          circRead_eq_readRange _ (by omega), hn]
        simp [armedBytes]
        rw [circRead_eq_readRange _ (by omega)]
      · rw [hg', hu]
        omega
    · -- pending bytes contiguous: send all of them, the buffer drains
      have hn : txNextRunLen s = get_number_of_unsent_bytes s := by
        rw [txNextRunLen, if_neg hw]
      have hu : get_number_of_unsent_bytes s
          = s.tx_buffer_head_index - s.tx_buffer_tail_index := by
        rw [unsent_eq_if s hh ht, if_pos (by omega)]
      have htl' : (s.tx_buffer_tail_index + txNextRunLen s) % s.tx_buffer_size
          = s.tx_buffer_head_index := by
        rw [hn, hu, show s.tx_buffer_tail_index
            + (s.tx_buffer_head_index - s.tx_buffer_tail_index)
            = s.tx_buffer_head_index by omega, Nat.mod_eq_of_lt hh]
      have hg' : get_number_of_unsent_bytes
          ({ s with
              tx_empty_irq_enabled := true,
              tx_buffer_tail_index :=
                (s.tx_buffer_tail_index + txNextRunLen s) % s.tx_buffer_size,
              pdc_Tx_in_progress := true }) = 0 := by
        rw [unsent_upd_tail s _ true true hh htb, htl']
        simp
      refine ⟨?_, rfl, rfl, htb, ?_, fun _ => h0, fun hfalse => Bool.noConfusion hfalse⟩
      · show armedBytes
            [Event.armTx s.tx_buffer_tail_index (txNextRunLen s)
              (readRange s.pdc_tx_buffer s.tx_buffer_tail_index (txNextRunLen s))]
            ++ txPending
              { s with
                  tx_empty_irq_enabled := true,
                  tx_buffer_tail_index :=
                    (s.tx_buffer_tail_index + txNextRunLen s) % s.tx_buffer_size,
                  pdc_Tx_in_progress := true }
          = txPending s
        rw [txPending_upd_tail, hg', circRead_zero,
          txPending_fields s rfl rfl rfl,
          circRead_eq_readRange _ (by omega), hn]
        simp [armedBytes]
      · rw [hg']
        omega

end SerialCB

namespace SerialCB

/-- readRange_writeBytes_self with the length given by an equation. -/
lemma readRange_writeBytes_self_len (buf : Nat → Nat) (dest : Nat) (src : List Nat)
    {len : Nat} (h : src.length = len) :
    readRange (writeBytes buf dest src) dest len = src := by
  subst h
  exact readRange_writeBytes_self buf dest src

/-- An enqueue while a transfer is outstanding arms nothing and appends
the packet to the pending segment. -/
lemma step_enq_busy (s : SCB) (data : List Nat)
    (hcap : 0 < s.tx_buffer_size)
    (hh : s.tx_buffer_head_index < s.tx_buffer_size)
    (ht : s.tx_buffer_tail_index < s.tx_buffer_size)
    (hip : s.pdc_Tx_in_progress = true)
    (hfit : get_number_of_unsent_bytes s + data.length < s.tx_buffer_size) :
    armedBytes (copy_packet_into_Tx_buffer_and_transmit s data).2 = []
  ∧ txPending (copy_packet_into_Tx_buffer_and_transmit s data).1
      = txPending s ++ data
  ∧ get_number_of_unsent_bytes (copy_packet_into_Tx_buffer_and_transmit s data).1
      = get_number_of_unsent_bytes s + data.length
  ∧ (copy_packet_into_Tx_buffer_and_transmit s data).1.tx_buffer_size = s.tx_buffer_size
  ∧ (copy_packet_into_Tx_buffer_and_transmit s data).1.tx_buffer_head_index
      < s.tx_buffer_size
  ∧ (copy_packet_into_Tx_buffer_and_transmit s data).1.tx_buffer_tail_index
      < s.tx_buffer_size
  ∧ (copy_packet_into_Tx_buffer_and_transmit s data).1.pdc_Tx_in_progress = true := by
  have hsize := (enq_frame s data).1
  have htail := enq_tail_busy s data hip
  have hhead := enq_head_mod s data hcap hh
  have hhq := unsent_head_eq s hh ht
  have hmm : (s.tx_buffer_head_index + data.length) % s.tx_buffer_size
      = (s.tx_buffer_tail_index + (get_number_of_unsent_bytes s + data.length))
          % s.tx_buffer_size := by
    conv_lhs => rw [hhq]
    rw [Nat.mod_add_mod, Nat.add_assoc]
  have hg' : get_number_of_unsent_bytes (copy_packet_into_Tx_buffer_and_transmit s data).1
      = get_number_of_unsent_bytes s + data.length := by
    rw [unsent_eq_if_fields _ (by rw [hhead, hmm]) htail hsize
        (by rw [← hmm, ← hhead, hhead]; exact Nat.mod_lt _ hcap) ht,
      if_dist_round ht (by omega)]
  have hpart1 : circRead (copy_packet_into_Tx_buffer_and_transmit s data).1.pdc_tx_buffer
      s.tx_buffer_tail_index (get_number_of_unsent_bytes s) s.tx_buffer_size
      = circRead s.pdc_tx_buffer s.tx_buffer_tail_index (get_number_of_unsent_bytes s)
          s.tx_buffer_size := by
    apply circRead_congr
    intro i hi
    have hp_lt : (s.tx_buffer_tail_index + i) % s.tx_buffer_size < s.tx_buffer_size :=
      Nat.mod_lt _ hcap
    have havoid : ∀ j, j < data.length →
        (s.tx_buffer_tail_index + i) % s.tx_buffer_size
          ≠ (s.tx_buffer_head_index + j) % s.tx_buffer_size := by
      intro j hj hcon
      apply circ_write_avoid ht hi hj (le_of_lt hfit) (i := i) (j := j)
      rw [hcon]
      conv_lhs => rw [hhq]
      rw [Nat.mod_add_mod, Nat.add_assoc]
    rw [enq_buf s data]
    by_cases hro : s.tx_buffer_size < data.length + s.tx_buffer_head_index
    · rw [if_pos hro,
        show (s.tx_buffer_head_index + (s.tx_buffer_size - s.tx_buffer_head_index))
            % s.tx_buffer_size = 0 by
          rw [show s.tx_buffer_head_index + (s.tx_buffer_size - s.tx_buffer_head_index)
              = s.tx_buffer_size by omega, Nat.mod_self]]
      have h2 : data.length + s.tx_buffer_head_index - s.tx_buffer_size
          ≤ (s.tx_buffer_tail_index + i) % s.tx_buffer_size := by
        by_contra hcon
        push_neg at hcon
        refine havoid ((s.tx_buffer_size - s.tx_buffer_head_index)
            + (s.tx_buffer_tail_index + i) % s.tx_buffer_size) (by omega) ?_
        rw [← Nat.add_assoc,
          show s.tx_buffer_head_index + (s.tx_buffer_size - s.tx_buffer_head_index)
            = s.tx_buffer_size by omega,
          Nat.add_mod_left,
          Nat.mod_eq_of_lt hp_lt]
      have h1 : (s.tx_buffer_tail_index + i) % s.tx_buffer_size
          < s.tx_buffer_head_index := by
        by_contra hcon
        push_neg at hcon
        refine havoid ((s.tx_buffer_tail_index + i) % s.tx_buffer_size
            - s.tx_buffer_head_index) (by omega) ?_
        rw [show s.tx_buffer_head_index
            + ((s.tx_buffer_tail_index + i) % s.tx_buffer_size
                - s.tx_buffer_head_index)
            = (s.tx_buffer_tail_index + i) % s.tx_buffer_size by omega,
          Nat.mod_eq_of_lt hp_lt]
      rw [writeBytes_ge _ _ _ (by rw [List.length_drop]; omega),
        writeBytes_lt _ _ _ h1]
    · rw [if_neg hro]
      have hnot : ¬ (s.tx_buffer_head_index ≤ (s.tx_buffer_tail_index + i) % s.tx_buffer_size
          ∧ (s.tx_buffer_tail_index + i) % s.tx_buffer_size
              < s.tx_buffer_head_index + data.length) := by
        rintro ⟨ha, hb⟩
        refine havoid ((s.tx_buffer_tail_index + i) % s.tx_buffer_size
            - s.tx_buffer_head_index) (by omega) ?_
        rw [show s.tx_buffer_head_index
            + ((s.tx_buffer_tail_index + i) % s.tx_buffer_size
                - s.tx_buffer_head_index)
            = (s.tx_buffer_tail_index + i) % s.tx_buffer_size by omega,
          Nat.mod_eq_of_lt hp_lt]
      rcases Nat.lt_or_ge ((s.tx_buffer_tail_index + i) % s.tx_buffer_size)
          s.tx_buffer_head_index with hlt | hge
      · rw [writeBytes_lt _ _ _ hlt]
      · have hge2 : s.tx_buffer_head_index + data.length
            ≤ (s.tx_buffer_tail_index + i) % s.tx_buffer_size := by
          by_contra hcon
          exact hnot ⟨hge, by omega⟩
        rw [writeBytes_ge _ _ _ hge2]
  have hpart2 : circRead (copy_packet_into_Tx_buffer_and_transmit s data).1.pdc_tx_buffer
      ((s.tx_buffer_tail_index + get_number_of_unsent_bytes s) % s.tx_buffer_size)
      data.length s.tx_buffer_size = data := by
    rw [← hhq, enq_buf s data]
    by_cases hro : s.tx_buffer_size < data.length + s.tx_buffer_head_index
    · rw [if_pos hro,
        show (s.tx_buffer_head_index + (s.tx_buffer_size - s.tx_buffer_head_index))
            % s.tx_buffer_size = 0 by
          rw [show s.tx_buffer_head_index + (s.tx_buffer_size - s.tx_buffer_head_index)
              = s.tx_buffer_size by omega, Nat.mod_self],
        show data.length = (s.tx_buffer_size - s.tx_buffer_head_index)
            + (data.length + s.tx_buffer_head_index - s.tx_buffer_size) by omega,
        circRead_split,
        show (s.tx_buffer_head_index + (s.tx_buffer_size - s.tx_buffer_head_index))
            % s.tx_buffer_size = 0 by
          rw [show s.tx_buffer_head_index + (s.tx_buffer_size - s.tx_buffer_head_index)
              = s.tx_buffer_size by omega, Nat.mod_self],
        circRead_eq_readRange _ (by omega),
        circRead_eq_readRange _ (by omega)]
      have hlt' : (data.take (s.tx_buffer_size - s.tx_buffer_head_index)).length
          = s.tx_buffer_size - s.tx_buffer_head_index := by
        rw [List.length_take]
        omega
      have hld' : (data.drop (s.tx_buffer_size - s.tx_buffer_head_index)).length
          = data.length + s.tx_buffer_head_index - s.tx_buffer_size := by
        rw [List.length_drop]
        omega
      rw [readRange_writeBytes_outside _ _ _ (Or.inl (by rw [List.length_drop]; omega)),
        readRange_writeBytes_self_len _ _ _ hlt',
        readRange_writeBytes_self_len _ _ _ hld', List.take_append_drop]
    · rw [if_neg hro, circRead_eq_readRange _ (by omega)]
      exact readRange_writeBytes_self s.pdc_tx_buffer s.tx_buffer_head_index data
  refine ⟨?_, ?_, hg', hsize, ?_, ?_, enq_ip s data⟩
  · by_cases hro : s.tx_buffer_size < data.length + s.tx_buffer_head_index
    · rw [enq_events_busy_roll s data hip hro]
      rfl
    · rw [enq_events_busy_nonroll s data hip hro]
      rfl
  · rw [txPending_fields _ rfl htail hsize, hg', circRead_split, hpart1,
      txPending_fields s rfl rfl rfl, hpart2]
  · rw [hhead]
    exact Nat.mod_lt _ hcap
  · rw [htail]
    exact ht

end SerialCB

namespace SerialCB

/-- An enqueue on an idle transmitter (head = tail) arms the first block
immediately; the armed bytes followed by the still-pending bytes are the
packet. -/
lemma step_enq_idle (s : SCB) (data : List Nat)
    (hcap : 0 < s.tx_buffer_size)
    (hh : s.tx_buffer_head_index < s.tx_buffer_size)
    (ht : s.tx_buffer_tail_index < s.tx_buffer_size)
    (hip : s.pdc_Tx_in_progress = false)
    (hht : s.tx_buffer_head_index = s.tx_buffer_tail_index)
    (hL : data.length ≤ s.tx_buffer_size) :
    armedBytes (copy_packet_into_Tx_buffer_and_transmit s data).2
        ++ txPending (copy_packet_into_Tx_buffer_and_transmit s data).1 = data
  ∧ get_number_of_unsent_bytes (copy_packet_into_Tx_buffer_and_transmit s data).1
        + (armedBytes (copy_packet_into_Tx_buffer_and_transmit s data).2).length
      = data.length
  ∧ (data.length ≠ 0 →
      1 ≤ (armedBytes (copy_packet_into_Tx_buffer_and_transmit s data).2).length)
  ∧ (copy_packet_into_Tx_buffer_and_transmit s data).1.tx_buffer_size = s.tx_buffer_size
  ∧ (copy_packet_into_Tx_buffer_and_transmit s data).1.tx_buffer_head_index
      < s.tx_buffer_size
  ∧ (copy_packet_into_Tx_buffer_and_transmit s data).1.tx_buffer_tail_index
      < s.tx_buffer_size
  ∧ (copy_packet_into_Tx_buffer_and_transmit s data).1.pdc_Tx_in_progress = true := by
  have hsize := (enq_frame s data).1
  have hhead := enq_head_mod s data hcap hh
  have htail := enq_tail_idle s data hip
  by_cases hro : s.tx_buffer_size < data.length + s.tx_buffer_head_index
  · have hfs : firstSeg s.tx_buffer_size s.tx_buffer_head_index data.length
        = s.tx_buffer_size - s.tx_buffer_head_index := if_pos hro
    have hz : (s.tx_buffer_head_index
        + (s.tx_buffer_size - s.tx_buffer_head_index)) % s.tx_buffer_size = 0 := by
      rw [show s.tx_buffer_head_index + (s.tx_buffer_size - s.tx_buffer_head_index)
          = s.tx_buffer_size by omega, Nat.mod_self]
    have htl : (copy_packet_into_Tx_buffer_and_transmit s data).1.tx_buffer_tail_index
        = 0 := by
      rw [htail, hfs, ← hht, hz]
    have hhd : (copy_packet_into_Tx_buffer_and_transmit s data).1.tx_buffer_head_index
        = data.length + s.tx_buffer_head_index - s.tx_buffer_size := by
      rw [hhead, show s.tx_buffer_head_index + data.length
          = (data.length + s.tx_buffer_head_index - s.tx_buffer_size) + s.tx_buffer_size
          by omega, Nat.add_mod_right, Nat.mod_eq_of_lt (by omega)]
    have hg' : get_number_of_unsent_bytes (copy_packet_into_Tx_buffer_and_transmit s data).1
        = data.length + s.tx_buffer_head_index - s.tx_buffer_size := by
      rw [unsent_eq_if_fields _ hhd htl hsize (by omega) hcap, if_pos (Nat.zero_le _)]
      omega
    have hlt' : (data.take (s.tx_buffer_size - s.tx_buffer_head_index)).length
        = s.tx_buffer_size - s.tx_buffer_head_index := by
      rw [List.length_take]
      omega
    have hld' : (data.drop (s.tx_buffer_size - s.tx_buffer_head_index)).length
        = data.length + s.tx_buffer_head_index - s.tx_buffer_size := by
      rw [List.length_drop]
      omega
    have harm : armedBytes (copy_packet_into_Tx_buffer_and_transmit s data).2
        = data.take (s.tx_buffer_size - s.tx_buffer_head_index) := by
      rw [enq_events_idle_roll s data hip hro]
      simp only [armedBytes, List.append_nil]
      rw [enq_buf s data, if_pos hro, hz,
        readRange_writeBytes_outside _ _ _ (Or.inl (by rw [List.length_drop]; omega)),
        readRange_writeBytes_self_len _ _ _ hlt']
    have hpend : txPending (copy_packet_into_Tx_buffer_and_transmit s data).1
        = data.drop (s.tx_buffer_size - s.tx_buffer_head_index) := by
      rw [txPending_fields _ rfl htl hsize, hg',
        circRead_eq_readRange _ (by omega),
        enq_buf s data, if_pos hro, hz,
        readRange_writeBytes_self_len _ _ _ hld']
    refine ⟨?_, ?_, ?_, hsize, ?_, ?_, enq_ip s data⟩
    · rw [harm, hpend, List.take_append_drop]
    · rw [hg', harm, hlt']
      omega
    · intro _
      rw [harm, hlt']
      omega
    · rw [hhd]
      omega
    · rw [htl]
      omega
  · have harm : armedBytes (copy_packet_into_Tx_buffer_and_transmit s data).2 = data := by
      rw [enq_events_idle_nonroll s data hip hro]
      simp only [armedBytes, List.append_nil]
      rw [enq_buf s data, if_neg hro]
      exact readRange_writeBytes_self s.pdc_tx_buffer s.tx_buffer_head_index data
    have htl : (copy_packet_into_Tx_buffer_and_transmit s data).1.tx_buffer_tail_index
        = (s.tx_buffer_head_index + data.length) % s.tx_buffer_size := by
      rw [htail, firstSeg, if_neg hro, ← hht]
    have hg' : get_number_of_unsent_bytes (copy_packet_into_Tx_buffer_and_transmit s data).1
        = 0 := by
      rw [unsent_eq_if_fields _ hhead htl hsize
          (Nat.mod_lt _ hcap) (Nat.mod_lt _ hcap), if_pos (Nat.le_refl _)]
      omega
    refine ⟨?_, ?_, ?_, hsize, ?_, ?_, enq_ip s data⟩
    · rw [txPending_fields _ rfl rfl rfl, hg', circRead_zero, harm, List.append_nil]
    · rw [hg', harm]
      omega
    · intro hne
      rw [harm]
      omega
    · rw [hhead]
      exact Nat.mod_lt _ hcap
    · rw [htl]
      exact Nat.mod_lt _ hcap

end SerialCB

namespace SerialCB

lemma run_cons (s : SCB) (op : Op) (ops : List Op) :
    run s (op :: ops)
      = ((run (step s op).1 ops).1, (step s op).2 ++ (run (step s op).1 ops).2) := rfl

/-- Main invariant of a transmit run: the bytes armed so far followed by
the bytes still pending are exactly the pending bytes at the start
followed by everything enqueued, and the indices stay in range; the
transmitter can only be idle with an empty pending segment.  The side
conditions thread the capacity budget: the total of pending plus
still-to-come bytes never exceeds the buffer size, strictly when a
transfer is outstanding. -/
lemma run_master (ops : List Op) : ∀ (s : SCB),
    0 < s.tx_buffer_size →
    s.tx_buffer_head_index < s.tx_buffer_size →
    s.tx_buffer_tail_index < s.tx_buffer_size →
    (s.pdc_Tx_in_progress = false → get_number_of_unsent_bytes s = 0) →
    (∀ d ∈ enqPackets ops, d ≠ []) →
    get_number_of_unsent_bytes s + (enqueuedBytes ops).length ≤ s.tx_buffer_size →
    (s.pdc_Tx_in_progress = true →
      get_number_of_unsent_bytes s + (enqueuedBytes ops).length < s.tx_buffer_size) →
    armedBytes (run s ops).2 ++ txPending (run s ops).1
        = txPending s ++ enqueuedBytes ops
    ∧ (run s ops).1.tx_buffer_size = s.tx_buffer_size
    ∧ (run s ops).1.tx_buffer_head_index < s.tx_buffer_size
    ∧ (run s ops).1.tx_buffer_tail_index < s.tx_buffer_size
    ∧ ((run s ops).1.pdc_Tx_in_progress = false →
        get_number_of_unsent_bytes (run s ops).1 = 0) := by
  induction ops with
  | nil =>
    intro s hcap hh ht hinv hne hi hii
    refine ⟨?_, rfl, hh, ht, hinv⟩
    show armedBytes [] ++ txPending s = txPending s ++ enqueuedBytes []
    simp [armedBytes, enqueuedBytes]
  | cons op ops ih =>
    intro s hcap hh ht hinv hne hi hii
    cases op with
    | irqTx =>
      rw [show enqueuedBytes (Op.irqTx :: ops) = enqueuedBytes ops from rfl] at hi hii ⊢
      rw [run_cons,
        show step s Op.irqTx = serial_circular_buffer_irq_handler s false true from rfl]
      obtain ⟨heq, hsz, hhd, htl, hle, hipto, hinv'⟩ := step_irq s hcap hh ht
      have ihs := ih (serial_circular_buffer_irq_handler s false true).1
        (by rw [hsz]; exact hcap)
        (by rw [hsz, hhd]; exact hh)
        (by rw [hsz]; exact htl)
        hinv'
        (fun d hd => hne d hd)
        (by rw [hsz]; omega)
        (by intro hipt
            rw [hsz]
            have hsne : get_number_of_unsent_bytes s ≠ 0 := hipto hipt
            have hsip : s.pdc_Tx_in_progress = true := by
              cases hb : s.pdc_Tx_in_progress
              · exact absurd (hinv hb) hsne
              · rfl
            have := hii hsip
            omega)
      obtain ⟨ieq, isz, ihd, itl, iinv⟩ := ihs
      refine ⟨?_, by rw [isz, hsz], by rw [← hsz]; exact ihd, by rw [← hsz]; exact itl, iinv⟩
      calc armedBytes ((serial_circular_buffer_irq_handler s false true).2
              ++ (run (serial_circular_buffer_irq_handler s false true).1 ops).2)
            ++ txPending (run (serial_circular_buffer_irq_handler s false true).1 ops).1
          = armedBytes (serial_circular_buffer_irq_handler s false true).2
              ++ (armedBytes (run (serial_circular_buffer_irq_handler s false true).1 ops).2
                  ++ txPending (run (serial_circular_buffer_irq_handler s false true).1 ops).1) := by
            rw [armedBytes_append, List.append_assoc]
        _ = armedBytes (serial_circular_buffer_irq_handler s false true).2
              ++ (txPending (serial_circular_buffer_irq_handler s false true).1
                  ++ enqueuedBytes ops) := by rw [ieq]
        _ = (armedBytes (serial_circular_buffer_irq_handler s false true).2
              ++ txPending (serial_circular_buffer_irq_handler s false true).1)
              ++ enqueuedBytes ops := by rw [List.append_assoc]
        _ = txPending s ++ enqueuedBytes ops := by rw [heq]
    | enq d =>
      have hd_ne : d ≠ [] := hne d (List.mem_cons_self d (enqPackets ops))
      have hL0 : 0 < d.length := List.length_pos.mpr hd_ne
      have hne' : ∀ x ∈ enqPackets ops, x ≠ [] :=
        fun x hx => hne x (List.mem_cons_of_mem _ hx)
      rw [show enqueuedBytes (Op.enq d :: ops) = d ++ enqueuedBytes ops from rfl,
        List.length_append] at hi hii
      rw [show enqueuedBytes (Op.enq d :: ops) = d ++ enqueuedBytes ops from rfl]
      rw [run_cons,
        show step s (Op.enq d) = copy_packet_into_Tx_buffer_and_transmit s d from rfl]
      cases hip : s.pdc_Tx_in_progress with
      | false =>
        have h0 : get_number_of_unsent_bytes s = 0 := hinv hip
        have hht : s.tx_buffer_head_index = s.tx_buffer_tail_index :=
          (unsent_eq_zero_iff s hh ht).mp h0
        obtain ⟨heq, hcnt, hposf, hsz, hhd, htl, hip'⟩ :=
          step_enq_idle s d hcap hh ht hip hht (by omega)
        have hpos : 1 ≤ (armedBytes (copy_packet_into_Tx_buffer_and_transmit s d).2).length :=
          hposf (by omega)
        have ihs := ih (copy_packet_into_Tx_buffer_and_transmit s d).1
          (by rw [hsz]; exact hcap)
          (by rw [hsz]; exact hhd)
          (by rw [hsz]; exact htl)
          (by intro hfalse
              rw [hip'] at hfalse
              exact Bool.noConfusion hfalse)
          hne'
          (by rw [hsz]; omega)
          (by intro _
              rw [hsz]
              omega)
        obtain ⟨ieq, isz, ihd, itl, iinv⟩ := ihs
        have hps : txPending s = [] := by
          rw [txPending_fields s rfl rfl rfl, h0, circRead_zero]
        refine ⟨?_, by rw [isz, hsz], by rw [← hsz]; exact ihd,
          by rw [← hsz]; exact itl, iinv⟩
        rw [hps, List.nil_append, armedBytes_append, List.append_assoc, ieq,
          ← List.append_assoc, heq]
      | true =>
        have hfit : get_number_of_unsent_bytes s + d.length < s.tx_buffer_size := by
          have := hii hip
          omega
        obtain ⟨harm, hpend, hg', hsz, hhd, htl, hip'⟩ :=
          step_enq_busy s d hcap hh ht hip hfit
        have ihs := ih (copy_packet_into_Tx_buffer_and_transmit s d).1
          (by rw [hsz]; exact hcap)
          (by rw [hsz]; exact hhd)
          (by rw [hsz]; exact htl)
          (by intro hfalse
              rw [hip'] at hfalse
              exact Bool.noConfusion hfalse)
          hne'
          (by rw [hsz, hg']
              have := hii hip
              omega)
          (by intro _
              rw [hsz, hg']
              have := hii hip
              omega)
        obtain ⟨ieq, isz, ihd, itl, iinv⟩ := ihs
        refine ⟨?_, by rw [isz, hsz], by rw [← hsz]; exact ihd,
          by rw [← hsz]; exact itl, iinv⟩
        rw [armedBytes_append, harm, List.nil_append, ieq, hpend, List.append_assoc]

end SerialCB

namespace SerialCB

/-- Claim C1 as frozen is false on the code: zero-length packets are
allowed by its precondition (total length at most tx_capacity), and a
zero-length enqueue on an idle transmitter sets pdc_Tx_in_progress while
arming zero bytes, so a following full-capacity packet is never handed to
the hardware.  Concretely with capacity 1: enqueue [], enqueue [7], then
one completion interrupt drains the transmitter with nothing armed, and
byte 7 is lost. -/
theorem claim_C1_counterexample :
    (mkIdle 1).pdc_Tx_in_progress = false
  ∧ (mkIdle 1).tx_buffer_head_index = (mkIdle 1).tx_buffer_tail_index
  ∧ (enqueuedBytes [Op.enq [], Op.enq [7], Op.irqTx]).length ≤ (mkIdle 1).tx_buffer_size
  ∧ (run (mkIdle 1) [Op.enq [], Op.enq [7], Op.irqTx]).1.pdc_Tx_in_progress = false
  ∧ armedBytes (run (mkIdle 1) [Op.enq [], Op.enq [7], Op.irqTx]).2
      ≠ enqueuedBytes [Op.enq [], Op.enq [7], Op.irqTx] := by
  decide

/-- Claim C1, amended to nonempty packets: for every sequence of enqueue
calls of nonempty packets with total length at most tx_capacity,
interleaved arbitrarily with transmit-complete interrupt invocations,
starting from an idle transmitter (in_progress false, head = tail), if at
the end the transmitter is idle again then the byte runs handed to the
arm-transmit calls, concatenated in arming order, are exactly the
concatenation of the enqueued bytes: nothing is lost, duplicated or
reordered, wraparound splits included. -/
theorem claim_C1_amended (s : SCB) (ops : List Op)
    (hcap : 0 < s.tx_buffer_size)
    (hip : s.pdc_Tx_in_progress = false)
    (hht : s.tx_buffer_head_index = s.tx_buffer_tail_index)
    (hh : s.tx_buffer_head_index < s.tx_buffer_size)
    (htot : (enqueuedBytes ops).length ≤ s.tx_buffer_size)
    (hne : ∀ d ∈ enqPackets ops, d ≠ [])
    (hdrain : (run s ops).1.pdc_Tx_in_progress = false) :
    armedBytes (run s ops).2 = enqueuedBytes ops := by
  have ht : s.tx_buffer_tail_index < s.tx_buffer_size := hht ▸ hh
  have h0 : get_number_of_unsent_bytes s = 0 := (unsent_eq_zero_iff s hh ht).mpr hht
  have hm := run_master ops s hcap hh ht (fun _ => h0) hne (by omega)
    (by intro hc
        rw [hip] at hc
        exact Bool.noConfusion hc)
  obtain ⟨heq, hsz, hhd, htl, hinvf⟩ := hm
  have hpf : txPending (run s ops).1 = [] := by
    rw [txPending_fields _ rfl rfl rfl, hinvf hdrain, circRead_zero]
  have hps : txPending s = [] := by
    rw [txPending_fields s rfl rfl rfl, h0, circRead_zero]
  rw [hpf, hps, List.append_nil, List.nil_append] at heq
  exact heq

/-- Witness for the amended claim C1: from head = tail = 6 in a buffer of
capacity 8, a wrapping three-byte packet, a further two-byte packet
queued while the transfer is outstanding, and two completion interrupts
reproduce the five bytes on the arm trace in order. -/
theorem claim_C1_witness :
    armedBytes (run (mkSt 8 6 6 false)
        [Op.enq [1, 2, 3], Op.enq [4, 5], Op.irqTx, Op.irqTx]).2
      = enqueuedBytes [Op.enq [1, 2, 3], Op.enq [4, 5], Op.irqTx, Op.irqTx] :=
  claim_C1_amended (mkSt 8 6 6 false) [Op.enq [1, 2, 3], Op.enq [4, 5], Op.irqTx, Op.irqTx]
    (by decide) (by decide) (by decide) (by decide) (by decide) (by decide) (by decide)

end SerialCB
